import Mathlib

/-!
# flamel, package `model`: registration and transactional persistence of modelables

A shallow embedding of `src/model/model.go`.

* A modelable is a Go struct that has `getModel` and `setModel`: a struct with an embedded
  field of type `Model`, or a struct without one that gets the methods by promotion from an
  embedded modelable.  It is represented by its type name, the `Model` that `getModel` returns
  and the list of its fields as reflection sees them.  A nested struct whose address implements
  `modelable` is a field that carries a modelable of its own.  When the methods are promoted,
  the `Model` of the struct and that of the embedded modelable are one Go object, written in
  both places of the representation.
* `Model.references` is a `map[int]modelable`; `Register`, the only code that fills it, stores
  at key `i` the address of field `i` of the same struct.  The map is represented by the list
  of its keys, in the order in which a `range` statement yields them; the modelable an entry
  points to is the one that sits in field `i` at the time the entry is followed, so that
  `p.Home = Address{}` after registration leaves the entry pointing at the new, unregistered
  value.  A Go map has no duplicate keys and its iteration order is left to the runtime, so a
  statement proved for every list of keys holds for every iteration order.
* Nested structs are disjoint, and handling one reference neither reads nor writes another.
  The loops over the references therefore take each reference from the fields as they are when
  the loop starts and write its new state back into the fields.  The entries are followed into
  the fields of the struct at hand, the struct `Register` built the structure for.
* `Register` reads the fields through reflection; `Interface()` on a value reached through an
  unexported field is a run-time panic, and so is the whole `Register`.
* `*structure` is a pointer that is nil in the zero `Model`; reading a promoted field
  (`model.references`, `model.structName`) through the nil pointer is a run-time panic.
* The datastore, its transactions and the memcache helpers are collaborators.  They are
  deterministic oracles of the trace of the calls made so far, and every call is appended to
  that trace.
-/

namespace Flamel

/-! ## Keys, errors, outcomes -/

/-- The `datastore.Key`: kind, string id, integer id and the path of its ancestors. -/
structure Key where
  kind : String
  stringID : String
  intID : Int
  parent : List (String × String × Int)
  deriving DecidableEq, Repr

/-- The `datastore.NewKey(ctx, kind, stringID, intID, parent)` with the parent given as a path. -/
def NewKey (kind stringID : String) (intID : Int) (parent : List (String × String × Int)) : Key :=
  { kind := kind, stringID := stringID, intID := intID, parent := parent }

/-- The `datastore.NewIncompleteKey(ctx, kind, nil)`: a key with neither a name nor an id. -/
def NewIncompleteKey (kind : String) : Key :=
  NewKey kind "" 0 []

/-- The `Key.Incomplete()`: the key names no stored entity yet. -/
def Key.Incomplete (k : Key) : Bool :=
  k.stringID == "" && k.intID == 0

/-- Go `error` values that the package builds or receives. -/
inductive Error where
  /-- `errors.New("data has already been created")` -/
  | alreadyCreated
  /-- `fmt.Errorf("Can't update modelable %v. Missing key", m)` -/
  | missingKeyUpdate
  /-- `"Can't populate struct %s. Model has no key"` with the struct name -/
  | missingKeyRead (structName : String)
  /-- the error built by `Create`, `Update`, `Read` for an unregistered modelable -/
  | unregistered (operation : String)
  /-- an error returned by the datastore -/
  | datastore (code : Nat)
  /-- an error returned by the memcache helpers -/
  | memcache (code : Nat)
  deriving DecidableEq, Repr

/-- The value a Go panic carries. -/
inductive PanicValue where
  /-- run-time error: invalid memory address or nil pointer dereference -/
  | nilPointerDereference
  /-- `panic(err)` -/
  | error (err : Error)
  /-- reflect.Value.Interface: cannot return value obtained from unexported field or method -/
  | unexportedField
  deriving DecidableEq, Repr

/-- How a call ends: it returns its `error` result (`none` is Go `nil`) or it panics. -/
inductive Outcome where
  | returned (err : Option Error)
  | panicked (value : PanicValue)
  deriving DecidableEq, Repr

/-! ## The data model -/

/-- The `encodedStruct` of a type.  Its declaration is not part of `model.go`; only the promoted
field `structName` is used there. -/
structure EncodedStruct where
  structName : String
  /-- the field-to-directive mapping filled by `mapStructure` -/
  fieldDirectives : List (String × String)
  deriving DecidableEq, Repr

/-- The `structure` a registered `Model` points to. -/
structure Structure where
  encodedStruct : EncodedStruct
  /-- keys of `references map[int]modelable`; the entry at key `i` is the address of field `i` -/
  references : List Nat
  deriving DecidableEq, Repr

/-- The promoted field `structName`. -/
def Structure.structName (s : Structure) : String :=
  s.encodedStruct.structName

/-- The `Model` embedded in every modelable.  `struct` is the embedded `*structure`. -/
structure Model where
  Registered : Bool
  struct : Option Structure
  key : Option Key
  deriving DecidableEq, Repr

/-- What reflection tells about one struct field. -/
structure FieldInfo where
  name : String
  /-- the value of the struct tag under `tag_domain` -/
  tag : String
  /-- `obj.Field(i).Type() == typeOfModel` -/
  isModelType : Bool
  /-- `obj.Field(i).Kind() == reflect.Struct` -/
  isStruct : Bool
  /-- `mType.Field(i).Anonymous`: the field is embedded -/
  embedded : Bool
  /-- `mType.Field(i).PkgPath == ""`: the field is exported, so that `Interface()` may be called
  on a value reached through it -/
  exported : Bool
  deriving DecidableEq, Repr

mutual
/-- A modelable: a struct value with the `Model` that its `getModel` returns, which is its
embedded `Model` field or, by promotion, that of an embedded modelable. -/
inductive Modelable where
  | mk (typeName : String) (model : Model) (fields : Fields)
/-- The fields of a struct in declaration order.  `plain` is a field whose address does not
implement `modelable` (the embedded `Model` itself is such a field, with `isModelType` set; its
state is the `model` of the owner); `sub` is a field whose address implements `modelable`. -/
inductive Fields where
  | nil
  | plain (info : FieldInfo) (value : String) (rest : Fields)
  | sub (info : FieldInfo) (m : Modelable) (rest : Fields)
end

/-- Name of the Go type of the modelable, `reflect.TypeOf(m).Elem().Name()`. -/
def Modelable.typeName : Modelable → String
  | .mk tn _ _ => tn

/-- The `getModel()`. -/
def Modelable.getModel : Modelable → Model
  | .mk _ model _ => model

/-- The fields of the struct. -/
def Modelable.fields : Modelable → Fields
  | .mk _ _ fs => fs

/-- The `setModel(m)`. -/
def Modelable.setModel : Modelable → Model → Modelable
  | .mk tn _ fs, model => .mk tn model fs

/-- The modelable held in field `k`, when field `k` implements `modelable`. -/
def Fields.resolve : Fields → Nat → Option Modelable
  | .nil, _ => none
  | .plain _ _ _, 0 => none
  | .sub _ m _, 0 => some m
  | .plain _ _ rest, k + 1 => rest.resolve k
  | .sub _ _ rest, k + 1 => rest.resolve k

/-- Store `r` in field `k` (a write through the pointer the reference map holds). -/
def Fields.set : Fields → Nat → Modelable → Fields
  | .nil, _, _ => .nil
  | .plain f v rest, 0, _ => .plain f v rest
  | .sub f _ rest, 0, r => .sub f r rest
  | .plain f v rest, k + 1, r => .plain f v (rest.set k r)
  | .sub f m rest, k + 1, r => .sub f m (rest.set k r)

/-- The reflection data of field `k`. -/
def Fields.info : Fields → Nat → Option FieldInfo
  | .nil, _ => none
  | .plain f _ _, 0 => some f
  | .sub f _ _, 0 => some f
  | .plain _ _ rest, k + 1 => rest.info k
  | .sub _ _ rest, k + 1 => rest.info k

/-- The `Model.Id()`: -1 without a key, the integer id of the key otherwise. -/
def Model.Id (model : Model) : Int :=
  match model.key with
  | none => -1
  | some k => k.intID

/-! ## Collaborators -/

/-- One call to a collaborator, with what it was given and, for `Put`, what it answered. -/
inductive Op where
  | put (key : Key) (src : Modelable) (answer : Option Key × Option Error)
  | get (key : Key)
  | beginTransaction
  | commit
  | rollback
  | saveInMemcache (key : Option Key)
  | loadFromMemcache (key : Option Key)

/-- The trace of collaborator calls, oldest first. -/
abbrev World := List Op

/-- The collaborators.  Each answer may depend on everything that happened before. -/
structure Env where
  /-- `datastore.Put(ctx, key, m)`: the returned key and error -/
  put : World → Key → Modelable → Option Key × Option Error
  /-- `datastore.Get(ctx, key, m)`: the stored properties and the error -/
  get : World → Key → List (String × String) × Option Error
  /-- beginning the transaction of `datastore.RunInTransaction` -/
  beginTransaction : World → Option Error
  /-- committing it -/
  commit : World → Option Error
  /-- `saveInMemcache(ctx, m)`; its code is not part of `model.go` -/
  saveInMemcache : World → Modelable → Option Error
  /-- `loadFromMemcache(ctx, m)`; its code is not part of `model.go` -/
  loadFromMemcache : World → Modelable → Modelable × Option Error

/-- The result of running a piece of code: how it ended, the trace and the state it left. -/
structure Step (α : Type) where
  outcome : Outcome
  world : World
  value : α

/-! ## Tags -/

/-- The `tag_skip` directive. -/
def tag_skip : String := "-"

/-- The `strings.Split(tag, ",")[0]`: what stands before the first comma. -/
def tagName (tag : String) : String :=
  String.mk (tag.data.takeWhile (fun c => c != ','))

/-- Modelled from the spec: `fromPropertyList`, which `Model.Load` calls, is not part of
`model.go`.  The persisted representation is a property list derived from the non-skip fields, so
loading writes the stored value of every plain field that is neither the `Model` nor tagged
skip, and leaves nested modelables to their own read. -/
def fromPropertyList (props : List (String × String)) : Fields → Fields
  | .nil => .nil
  | .plain f v rest =>
    .plain f (if f.isModelType || tagName f.tag == tag_skip then v else (props.lookup f.name).getD v)
      (fromPropertyList props rest)
  | .sub f m rest => .sub f m (fromPropertyList props rest)

/-! ## create, update, read -/

/-- A `for k := range references` loop whose body `visit` handles the reference at key `k` and
returns the new state of the modelable it points to, which is written back to field `k`.  The
loop stops at the first error or panic. -/
def rangeReferences (visit : Nat → World → Step (Option Modelable)) :
    List Nat → World → Fields → Step Fields
  | [], w, fs => ⟨.returned none, w, fs⟩
  | k :: ks, w, fs =>
    let r := visit k w
    let fs1 := match r.value with
      | some ref => fs.set k ref
      | none => fs
    match r.outcome with
    | .returned none => rangeReferences visit ks r.world fs1
    | o => ⟨o, r.world, fs1⟩

/-- Ranging over `model.references`: the map is reached through `model.structure`, so a nil
structure is a nil pointer dereference. -/
def rangeModelReferences (visit : Nat → World → Step (Option Modelable)) (w : World)
    (model : Model) (fs : Fields) : Step Fields :=
  match model.struct with
  | none => ⟨.panicked .nilPointerDereference, w, fs⟩
  | some s => rangeReferences visit s.references w fs

mutual
/-- The `create(ctx, m)`. -/
def create (env : Env) (w : World) : Modelable → Step Modelable
  | .mk tn model fs =>
    match model.key with
    | some _ => ⟨.returned (some .alreadyCreated), w, .mk tn model fs⟩
    | none =>
      let r := rangeModelReferences (fun k w1 => createOrUpdateAt env w1 fs k) w model fs
      match r.outcome with
      | .returned none =>
        match model.struct with
        | none => ⟨.panicked .nilPointerDereference, r.world, .mk tn model r.value⟩
        | some s =>
          let incompleteKey := NewIncompleteKey s.structName
          let m1 := Modelable.mk tn model r.value
          let answer := env.put r.world incompleteKey m1
          match answer.2 with
          | some err => ⟨.returned (some err), r.world ++ [.put incompleteKey m1 answer], m1⟩
          | none =>
            ⟨.returned none, r.world ++ [.put incompleteKey m1 answer],
              .mk tn { model with key := answer.1 } r.value⟩
      | o => ⟨o, r.world, .mk tn model r.value⟩
/-- The `update(ctx, m)`. -/
def update (env : Env) (w : World) : Modelable → Step Modelable
  | .mk tn model fs =>
    match model.key with
    | none => ⟨.returned (some .missingKeyUpdate), w, .mk tn model fs⟩
    | some key =>
      let r := rangeModelReferences (fun k w1 => createOrUpdateAt env w1 fs k) w model fs
      match r.outcome with
      | .returned none =>
        let m1 := Modelable.mk tn model r.value
        let answer := env.put r.world key m1
        match answer.2 with
        | some err => ⟨.returned (some err), r.world ++ [.put key m1 answer], m1⟩
        | none =>
          ⟨.returned none, r.world ++ [.put key m1 answer],
            .mk tn { model with key := answer.1 } r.value⟩
      | o => ⟨o, r.world, .mk tn model r.value⟩
/-- The body of the loop of `createOrUpdateReferences` for the reference at key `k`, which is
the modelable in field `k`: created when it has no key and is registered, left alone when it has
no key and is not registered, updated when it has a key.  A key that leads to no field
implementing `modelable` stands for a nil entry, on which `getModel` panics. -/
def createOrUpdateAt (env : Env) (w : World) : Fields → Nat → Step (Option Modelable)
  | .nil, _ => ⟨.panicked .nilPointerDereference, w, none⟩
  | .plain _ _ _, 0 => ⟨.panicked .nilPointerDereference, w, none⟩
  | .sub _ ref _, 0 =>
    match ref.getModel.key with
    | none =>
      if ref.getModel.Registered then
        let r := create env w ref
        ⟨r.outcome, r.world, some r.value⟩
      else ⟨.returned none, w, some ref⟩
    | some _ =>
      let r := update env w ref
      ⟨r.outcome, r.world, some r.value⟩
  | .plain _ _ rest, k + 1 => createOrUpdateAt env w rest k
  | .sub _ _ rest, k + 1 => createOrUpdateAt env w rest k
end

/-- The `createOrUpdateReferences(ctx, model)`, given the modelable that embeds `model`. -/
def createOrUpdateReferences (env : Env) (w : World) : Modelable → Step Modelable
  | .mk tn model fs =>
    let r := rangeModelReferences (fun k w1 => createOrUpdateAt env w1 fs k) w model fs
    ⟨r.outcome, r.world, .mk tn model r.value⟩

mutual
/-- The `read(ctx, m)`. -/
def read (env : Env) (w : World) : Modelable → Step Modelable
  | .mk tn model fs =>
    match model.key with
    | none =>
      match model.struct with
      | none => ⟨.panicked .nilPointerDereference, w, .mk tn model fs⟩
      | some s => ⟨.returned (some (.missingKeyRead s.structName)), w, .mk tn model fs⟩
    | some key =>
      let answer := env.get w key
      match answer.2 with
      | some err => ⟨.returned (some err), w ++ [.get key], .mk tn model fs⟩
      | none =>
        let r := rangeModelReferences (fun k w1 => readAt env w1 fs k) (w ++ [.get key]) model
          (fromPropertyList answer.1 fs)
        ⟨r.outcome, r.world, .mk tn model r.value⟩
/-- The body of the loop of `read` for the reference at key `k`: it is read, whatever its
registration. -/
def readAt (env : Env) (w : World) : Fields → Nat → Step (Option Modelable)
  | .nil, _ => ⟨.panicked .nilPointerDereference, w, none⟩
  | .plain _ _ _, 0 => ⟨.panicked .nilPointerDereference, w, none⟩
  | .sub _ ref _, 0 =>
    let r := read env w ref
    ⟨r.outcome, r.world, some r.value⟩
  | .plain _ _ rest, k + 1 => readAt env w rest k
  | .sub _ _ rest, k + 1 => readAt env w rest k
end

/-! ## Create, Update, Read -/

/-- The `datastore.RunInTransaction(ctx, f, &opts)` with `opts.Attempts = 1`: the transaction is
begun, `f` runs once, the transaction is committed when `f` returns nil and rolled back when it
returns an error; the error of `f`, or else of the commit, is returned.  A panic of `f` passes
through. -/
def RunInTransaction (env : Env) (w : World) (m : Modelable)
    (f : World → Modelable → Step Modelable) : Step Modelable :=
  match env.beginTransaction w with
  | some err => ⟨.returned (some err), w ++ [.beginTransaction], m⟩
  | none =>
    let r := f (w ++ [.beginTransaction]) m
    match r.outcome with
    | .returned none => ⟨.returned (env.commit r.world), r.world ++ [.commit], r.value⟩
    | .returned (some err) => ⟨.returned (some err), r.world ++ [.rollback], r.value⟩
    | .panicked v => ⟨.panicked v, r.world, r.value⟩

/-- The deferred closure of `Create` and `Update`.  It runs when the function returns and also
while a panic unwinds; `err` is the named result, still nil when the transaction panicked.  When
`err` is nil the closure assigns the result of `saveInMemcache` to it. -/
def saveDeferred (env : Env) (r : Step Modelable) : Step Modelable :=
  match r.outcome with
  | .returned none =>
    ⟨.returned (env.saveInMemcache r.world r.value),
      r.world ++ [.saveInMemcache r.value.getModel.key], r.value⟩
  | .returned (some err) => ⟨.returned (some err), r.world, r.value⟩
  | .panicked v => ⟨.panicked v, r.world ++ [.saveInMemcache r.value.getModel.key], r.value⟩

/-- The public `Create(ctx, m)`. -/
def Create (env : Env) (w : World) (m : Modelable) : Step Modelable :=
  if !m.getModel.Registered then
    ⟨.panicked (.error (.unregistered "create")), w, m⟩
  else
    saveDeferred env (RunInTransaction env w m (create env))

/-- The public `Update(ctx, m)`. -/
def Update (env : Env) (w : World) (m : Modelable) : Step Modelable :=
  if !m.getModel.Registered then
    ⟨.panicked (.error (.unregistered "Update")), w, m⟩
  else
    saveDeferred env (RunInTransaction env w m (update env))

/-- The public `Read(ctx, m)`.  Its panic message says "Update" in the source as well. -/
def Read (env : Env) (w : World) (m : Modelable) : Step Modelable :=
  if !m.getModel.Registered then
    ⟨.panicked (.error (.unregistered "Update")), w, m⟩
  else
    let cached := env.loadFromMemcache w m
    match cached.2 with
    | none => ⟨.returned none, w ++ [.loadFromMemcache m.getModel.key], cached.1⟩
    | some _ => RunInTransaction env (w ++ [.loadFromMemcache m.getModel.key]) cached.1 (read env)

/-! ## Register -/

/-- The process-wide `encodedStructs` cache and `mapStructure`, neither of which is part of
`model.go`; types are identified by their names. -/
structure Registry where
  encodedStructs : String → Option EncodedStruct
  mapStructure : String → EncodedStruct

/-- The test of the loop of `Register` that lets field `i` be looked at as a reference: it is
not the `Model`, its tag does not start with the skip directive, and it is of struct kind. -/
def FieldInfo.eligible (f : FieldInfo) : Bool :=
  !f.isModelType && !(tagName f.tag == tag_skip) && f.isStruct

/-- The keys `Register` puts into `s.references`, for the fields from index `i` on. -/
def referenceKeys : Nat → Fields → List Nat
  | _, .nil => []
  | i, .plain _ _ rest => referenceKeys (i + 1) rest
  | i, .sub f _ rest =>
    if f.eligible then i :: referenceKeys (i + 1) rest else referenceKeys (i + 1) rest

/-- The result of code that calls no collaborator: the panic it ended in, if any, and the state
it left behind. -/
structure Run (α : Type) where
  panic : Option PanicValue
  value : α

/-- The struct has an embedded field of type `Model`, so `getModel` and `setModel` are those of
that field. -/
def Fields.ownsModel : Fields → Bool
  | .nil => false
  | .plain f _ rest => (f.isModelType && f.embedded) || rest.ownsModel
  | .sub f _ rest => (f.isModelType && f.embedded) || rest.ownsModel

/-- For a struct without an embedded `Model` field: the `Model` of the embedded modelable from
which `getModel` and `setModel` are promoted. -/
def Fields.promotedModel : Fields → Option Model
  | .nil => none
  | .plain _ _ rest => rest.promotedModel
  | .sub f m rest => if f.embedded then some m.getModel else rest.promotedModel

mutual
/-- The `setModel(m)` as a write to the one `Model` that the struct and, when the method is
promoted, the embedded modelable it comes from share. -/
def Modelable.setModelDeep : Modelable → Model → Modelable
  | .mk tn _ fs, model => .mk tn model (if fs.ownsModel then fs else fs.setPromoted model)
/-- The write to the `Model` of the embedded modelable from which `setModel` is promoted. -/
def Fields.setPromoted : Fields → Model → Fields
  | .nil, _ => .nil
  | .plain f v rest, model => .plain f v (rest.setPromoted model)
  | .sub f m rest, model =>
    if f.embedded then .sub f (m.setModelDeep model) rest else .sub f m (rest.setPromoted model)
end

mutual
/-- The panic `Register` ends in, read off the types alone: the walk calls
`obj.Field(i).Addr().Interface()` on every field of struct kind that is not the `Model` and is
not tagged skip, which panics when the field is unexported, and it walks into every such field
that implements `modelable`. -/
def Modelable.registerPanics : Modelable → Option PanicValue
  | .mk _ _ fs => fs.registerPanics
/-- The panic the walk over these fields ends in. -/
def Fields.registerPanics : Fields → Option PanicValue
  | .nil => none
  | .plain f _ rest =>
    if f.eligible && !f.exported then some .unexportedField else rest.registerPanics
  | .sub f m rest =>
    if f.eligible then
      if !f.exported then some .unexportedField
      else
        match m.registerPanics with
        | some v => some v
        | none => rest.registerPanics
    else rest.registerPanics
end

/-- What `m.getModel()` returns after the walk of `Register` over the fields `fs` of a struct
whose `Model` was `model`, the walk having left the fields `walked`.  The walk writes to a
`Model` only to register it, and the only `Model` it can reach that is also the struct's is the
one promoted from an embedded modelable: when the struct has no `Model` field of its own and
its `Model` was not registered, it is now the `Model` of that embedded modelable. -/
def modelAfterWalk (model : Model) (fs walked : Fields) : Model :=
  if fs.ownsModel || model.Registered then model else walked.promotedModel.getD model

/-- The `structure` that `Register` builds for a struct named `tn` with the fields `fs`. -/
def builtStructure (reg : Registry) (tn : String) (fs : Fields) : Structure :=
  { encodedStruct :=
      { (match reg.encodedStructs tn with
          | some e => e
          | none => reg.mapStructure tn) with structName := tn }
    references := referenceKeys 0 fs }

mutual
/-- The `Register(m)`.  The walk registers the nested modelables in place and stops at the first
panic.  After the walk `m.getModel()` is read again, and a `Model` that is not registered is
replaced through `setModel` by one that carries the structure built for `m` and the key held
before. -/
def Register (reg : Registry) : Modelable → Run Modelable
  | .mk tn model fs =>
    let s := builtStructure reg tn fs
    let walk := registerFields reg fs
    let current := modelAfterWalk model fs walk.value
    match walk.panic with
    | some v => ⟨some v, .mk tn current walk.value⟩
    | none =>
      if !current.Registered then
        ⟨none, (Modelable.mk tn current walk.value).setModelDeep
          { Registered := true, struct := some s, key := current.key }⟩
      else ⟨none, .mk tn current walk.value⟩
/-- The loop of `Register` over the fields, in declaration order. -/
def registerFields (reg : Registry) : Fields → Run Fields
  | .nil => ⟨none, .nil⟩
  | .plain f v rest =>
    if f.eligible && !f.exported then ⟨some .unexportedField, .plain f v rest⟩
    else
      let r := registerFields reg rest
      ⟨r.panic, .plain f v r.value⟩
  | .sub f m rest =>
    if f.eligible then
      if !f.exported then ⟨some .unexportedField, .sub f m rest⟩
      else
        let r := Register reg m
        match r.panic with
        | some v => ⟨some v, .sub f r.value rest⟩
        | none =>
          let rs := registerFields reg rest
          ⟨rs.panic, .sub f r.value rs.value⟩
    else
      let rs := registerFields reg rest
      ⟨rs.panic, .sub f m rs.value⟩
end

/-- The `ModelableFromID(ctx, m, id)`: the modelable is registered when it is not, its key is
set to the key `NewKey` builds from its struct name and `id`, and it is read.  A panic of
`Register` passes through, and `model.structName` is read through the structure. -/
def ModelableFromID (reg : Registry) (env : Env) (w : World) (m : Modelable) (id : Int) :
    Step Modelable :=
  let r : Run Modelable := if !m.getModel.Registered then Register reg m else ⟨none, m⟩
  match r.panic with
  | some v => ⟨.panicked v, w, r.value⟩
  | none =>
    match r.value.getModel.struct with
    | none => ⟨.panicked .nilPointerDereference, w, r.value⟩
    | some s =>
      Read env w
        (r.value.setModelDeep { r.value.getModel with key := some (NewKey s.structName "" id []) })

/-! ## Reference trees and traces -/

/-- The `model.structName` of a modelable whose `Model` has a structure. -/
def Modelable.structName (m : Modelable) : String :=
  match m.getModel.struct with
  | none => ""
  | some s => s.structName

mutual
/-- The records of the reference tree of a modelable: for every key of the reference map, in
iteration order, the records of the tree of that reference, and then the modelable itself. -/
def postOrder : Modelable → List Modelable
  | .mk tn model fs =>
    (match model.struct with
      | none => []
      | some s => s.references.flatMap (fun k => postOrderAt fs k)) ++ [.mk tn model fs]
/-- The records of the tree of the reference at key `k`. -/
def postOrderAt : Fields → Nat → List Modelable
  | .nil, _ => []
  | .plain _ _ _, 0 => []
  | .sub _ ref _, 0 => postOrder ref
  | .plain _ _ rest, k + 1 => postOrderAt rest k
  | .sub _ _ rest, k + 1 => postOrderAt rest k
end

mutual
/-- A modelable that was registered and never stored, with all of its reference tree: it is
registered, has no key, has the structure `Register` gives it (named after its type, the keys
of the reference map distinct), and every key leads to a field holding a modelable of the same
sort. -/
def fresh : Modelable → Bool
  | .mk tn model fs =>
    model.Registered && model.key.isNone &&
      (match model.struct with
        | none => false
        | some s =>
          decide s.references.Nodup && s.references.all (fun k => freshAt fs k) &&
            s.structName == tn)
/-- The reference at key `k` exists and is fresh. -/
def freshAt : Fields → Nat → Bool
  | .nil, _ => false
  | .plain _ _ _, 0 => false
  | .sub _ ref _, 0 => fresh ref
  | .plain _ _ rest, k + 1 => freshAt rest k
  | .sub _ _ rest, k + 1 => freshAt rest k
end

mutual
/-- A modelable whose reference tree went through `Register`: it has its structure, and every key
of its reference map leads to a field holding a modelable that either is left alone by
`createOrUpdateReferences` (no key, not registered) or is of the same sort. -/
def wired : Modelable → Bool
  | .mk _ model fs =>
    match model.struct with
    | none => false
    | some s => s.references.all (fun k => wiredAt fs k)
/-- The reference at key `k` exists and is skipped or wired. -/
def wiredAt : Fields → Nat → Bool
  | .nil, _ => false
  | .plain _ _ _, 0 => false
  | .sub _ ref _, 0 => (ref.getModel.key.isNone && !ref.getModel.Registered) || wired ref
  | .plain _ _ rest, k + 1 => wiredAt rest k
  | .sub _ _ rest, k + 1 => wiredAt rest k
end

/-- The key a `Put` was made at. -/
def Op.putKey : Op → Option Key
  | .put key _ _ => some key
  | _ => none

/-- The key the datastore answered a `Put` with. -/
def Op.answeredKey : Op → Option Key
  | .put _ _ answer => answer.1
  | _ => none

/-- A `Put` of a record that holds a key is made at that key. -/
def Op.atHeldKey : Op → Bool
  | .put key src _ =>
    match src.getModel.key with
    | some held => key == held
    | none => true
  | _ => true

/-- Every `Put` among `ops`, which were made after the calls `pre`, carries the answer the
datastore gives at that point. -/
def answersFrom (env : Env) : World → World → Bool
  | _, [] => true
  | pre, .put key src answer :: rest =>
    decide (answer = env.put pre key src) && answersFrom env (pre ++ [.put key src answer]) rest
  | pre, .get key :: rest => answersFrom env (pre ++ [.get key]) rest
  | pre, .beginTransaction :: rest => answersFrom env (pre ++ [.beginTransaction]) rest
  | pre, .commit :: rest => answersFrom env (pre ++ [.commit]) rest
  | pre, .rollback :: rest => answersFrom env (pre ++ [.rollback]) rest
  | pre, .saveInMemcache key :: rest => answersFrom env (pre ++ [.saveInMemcache key]) rest
  | pre, .loadFromMemcache key :: rest => answersFrom env (pre ++ [.loadFromMemcache key]) rest

/-! ## The Person and Address example -/

/-- The embedded `Model` field. -/
def modelField : FieldInfo :=
  { name := "Model", tag := "", isModelType := true, isStruct := true, embedded := true,
    exported := true }

/-- An `Address{Model, City string}` holding the given `Model`. -/
def address (model : Model) : Modelable :=
  .mk "Address" model
    (.plain modelField "" (.plain ⟨"City", "", false, false, false, true⟩ "Turin" .nil))

/-- A `Person{Model, Name string, Home Address}` holding the given `Model` and address. -/
def person (model : Model) (home : Modelable) : Modelable :=
  .mk "Person" model
    (.plain modelField "" (.plain ⟨"Name", "", false, false, false, true⟩ "Ada"
      (.sub ⟨"Home", "", false, true, false, true⟩ home .nil)))

/-- An `Employee{Person, Role string}`: it has no `Model` field of its own and gets `getModel`
and `setModel` from the embedded `Person`, whose `Model` is therefore its own. -/
def employee (p : Modelable) : Modelable :=
  .mk "Employee" p.getModel
    (.sub ⟨"Person", "", false, true, true, true⟩ p
      (.plain ⟨"Role", "", false, false, false, true⟩ "clerk" .nil))

/-- A `Ledger{Model, opened time.Time}`: its second field is of struct kind and unexported. -/
def ledger (model : Model) : Modelable :=
  .mk "Ledger" model
    (.plain modelField "" (.plain ⟨"opened", "", false, true, false, false⟩ "2016" .nil))

/-- The zero `Model`. -/
def zeroModel : Model := { Registered := false, struct := none, key := none }

/-- The `Model` that `Register` installs for a type with the given reference keys. -/
def registeredModel (name : String) (refs : List Nat) (key : Option Key) : Model :=
  { Registered := true, struct := some ⟨⟨name, []⟩, refs⟩, key := key }

/-- A registry with an empty cache. -/
def emptyRegistry : Registry :=
  { encodedStructs := fun _ => none, mapStructure := fun tn => ⟨tn, []⟩ }

/-- A datastore that answers every `Put` made with an incomplete key by a key whose id is one more than the
number of calls so far, every other `Put` by its key, every `Get` by no properties; the
transaction and the memcache write succeed and the memcache read misses. -/
def countingEnv : Env :=
  { put := fun w k _ => (some (if k.Incomplete then { k with intID := w.length + 1 } else k), none)
    get := fun _ _ => ([], none)
    beginTransaction := fun _ => none
    commit := fun _ => none
    saveInMemcache := fun _ _ => none
    loadFromMemcache := fun _ m => (m, some (.memcache 0)) }

/-- An `Address` that went through `Register` and whose `Registered` flag is off. -/
def unregisteredAddress (key : Option Key) : Modelable :=
  address { Registered := false, struct := some ⟨⟨"Address", []⟩, []⟩, key := key }

/-- The collaborators of `countingEnv` with a memcache whose write fails. -/
def failingCacheEnv : Env :=
  { countingEnv with saveInMemcache := fun _ _ => some (.memcache 1) }

/-! ## Resolving references -/

theorem createOrUpdateAt_resolve (env : Env) (w : World) :
    ∀ (fs : Fields) (k : Nat), createOrUpdateAt env w fs k =
      match fs.resolve k with
      | none => ⟨.panicked .nilPointerDereference, w, none⟩
      | some ref =>
        match ref.getModel.key with
        | none =>
          if ref.getModel.Registered then
            ⟨(create env w ref).outcome, (create env w ref).world, some (create env w ref).value⟩
          else ⟨.returned none, w, some ref⟩
        | some _ =>
          ⟨(update env w ref).outcome, (update env w ref).world, some (update env w ref).value⟩
  | .nil, _ => by simp [createOrUpdateAt, Fields.resolve]
  | .plain _ _ _, 0 => by simp [createOrUpdateAt, Fields.resolve]
  | .sub _ ref _, 0 => by
    simp only [createOrUpdateAt, Fields.resolve]
  | .plain _ _ rest, k + 1 => by
    simp only [createOrUpdateAt, Fields.resolve]
    exact createOrUpdateAt_resolve env w rest k
  | .sub _ _ rest, k + 1 => by
    simp only [createOrUpdateAt, Fields.resolve]
    exact createOrUpdateAt_resolve env w rest k

theorem readAt_resolve (env : Env) (w : World) :
    ∀ (fs : Fields) (k : Nat), readAt env w fs k =
      match fs.resolve k with
      | none => ⟨.panicked .nilPointerDereference, w, none⟩
      | some ref => ⟨(read env w ref).outcome, (read env w ref).world, some (read env w ref).value⟩
  | .nil, _ => by simp [readAt, Fields.resolve]
  | .plain _ _ _, 0 => by simp [readAt, Fields.resolve]
  | .sub _ ref _, 0 => by simp [readAt, Fields.resolve]
  | .plain _ _ rest, k + 1 => by
    simp only [readAt, Fields.resolve]
    exact readAt_resolve env w rest k
  | .sub _ _ rest, k + 1 => by
    simp only [readAt, Fields.resolve]
    exact readAt_resolve env w rest k

theorem postOrderAt_resolve :
    ∀ (fs : Fields) (k : Nat), postOrderAt fs k =
      match fs.resolve k with
      | none => []
      | some ref => postOrder ref
  | .nil, _ => by simp [postOrderAt, Fields.resolve]
  | .plain _ _ _, 0 => by simp [postOrderAt, Fields.resolve]
  | .sub _ ref _, 0 => by simp [postOrderAt, Fields.resolve]
  | .plain _ _ rest, k + 1 => by
    simp only [postOrderAt, Fields.resolve]
    exact postOrderAt_resolve rest k
  | .sub _ _ rest, k + 1 => by
    simp only [postOrderAt, Fields.resolve]
    exact postOrderAt_resolve rest k

theorem freshAt_resolve :
    ∀ (fs : Fields) (k : Nat), freshAt fs k =
      match fs.resolve k with
      | none => false
      | some ref => fresh ref
  | .nil, _ => by simp [freshAt, Fields.resolve]
  | .plain _ _ _, 0 => by simp [freshAt, Fields.resolve]
  | .sub _ ref _, 0 => by simp [freshAt, Fields.resolve]
  | .plain _ _ rest, k + 1 => by
    simp only [freshAt, Fields.resolve]
    exact freshAt_resolve rest k
  | .sub _ _ rest, k + 1 => by
    simp only [freshAt, Fields.resolve]
    exact freshAt_resolve rest k

theorem wiredAt_resolve :
    ∀ (fs : Fields) (k : Nat), wiredAt fs k =
      match fs.resolve k with
      | none => false
      | some ref => (ref.getModel.key.isNone && !ref.getModel.Registered) || wired ref
  | .nil, _ => by simp [wiredAt, Fields.resolve]
  | .plain _ _ _, 0 => by simp [wiredAt, Fields.resolve]
  | .sub _ ref _, 0 => by simp [wiredAt, Fields.resolve]
  | .plain _ _ rest, k + 1 => by
    simp only [wiredAt, Fields.resolve]
    exact wiredAt_resolve rest k
  | .sub _ _ rest, k + 1 => by
    simp only [wiredAt, Fields.resolve]
    exact wiredAt_resolve rest k

theorem Fields.resolve_set_self :
    ∀ (fs : Fields) (k : Nat) (ref r : Modelable), fs.resolve k = some ref →
      (fs.set k r).resolve k = some r
  | .nil, _, _, _ => by simp [Fields.resolve]
  | .plain _ _ _, 0, _, _ => by simp [Fields.resolve]
  | .sub _ _ _, 0, _, _ => by simp [Fields.resolve, Fields.set]
  | .plain _ _ rest, k + 1, ref, r => by
    simp only [Fields.resolve, Fields.set]
    exact Fields.resolve_set_self rest k ref r
  | .sub _ _ rest, k + 1, ref, r => by
    simp only [Fields.resolve, Fields.set]
    exact Fields.resolve_set_self rest k ref r

theorem Fields.resolve_set_other :
    ∀ (fs : Fields) (k j : Nat) (r : Modelable), j ≠ k → (fs.set k r).resolve j = fs.resolve j
  | .nil, _, _, _ => by simp [Fields.resolve, Fields.set]
  | .plain _ _ _, 0, 0, _ => by simp
  | .plain _ _ _, 0, j + 1, _ => by simp [Fields.resolve, Fields.set]
  | .sub _ _ _, 0, 0, _ => by simp
  | .sub _ _ _, 0, j + 1, _ => by simp [Fields.resolve, Fields.set]
  | .plain _ _ _, k + 1, 0, _ => by simp [Fields.resolve, Fields.set]
  | .sub _ _ _, k + 1, 0, _ => by simp [Fields.resolve, Fields.set]
  | .plain _ _ rest, k + 1, j + 1, r => by
    intro h
    simp only [Fields.resolve, Fields.set]
    exact Fields.resolve_set_other rest k j r (by omega)
  | .sub _ _ rest, k + 1, j + 1, r => by
    intro h
    simp only [Fields.resolve, Fields.set]
    exact Fields.resolve_set_other rest k j r (by omega)

mutual
theorem Modelable.induction_on_references (P : Modelable → Prop)
    (step : ∀ tn model fs, (∀ k ref, fs.resolve k = some ref → P ref) → P (.mk tn model fs)) :
    ∀ m, P m
  | .mk tn model fs => step tn model fs (Fields.resolve_induction P step fs)
theorem Fields.resolve_induction (P : Modelable → Prop)
    (step : ∀ tn model fs, (∀ k ref, fs.resolve k = some ref → P ref) → P (.mk tn model fs)) :
    ∀ (fs : Fields) (k : Nat) (ref : Modelable), fs.resolve k = some ref → P ref
  | .nil, _, _ => by simp [Fields.resolve]
  | .plain _ _ _, 0, _ => by simp [Fields.resolve]
  | .sub _ m _, 0, ref => by
    simp only [Fields.resolve, Option.some.injEq]
    intro h
    exact h ▸ Modelable.induction_on_references P step m
  | .plain _ _ rest, k + 1, ref => by
    simp only [Fields.resolve]
    exact Fields.resolve_induction P step rest k ref
  | .sub _ _ rest, k + 1, ref => by
    simp only [Fields.resolve]
    exact Fields.resolve_induction P step rest k ref
end

/-! ## Keys that are missing or already there -/

/-- C1: `create` on a modelable that already holds a key returns the error "data has already
been created"; the trace is the one it was given, so neither the record nor any of its references
was written, and the modelable, its key included, is as it was. -/
theorem create_keyed_already_created (env : Env) (w : World) (m : Modelable) (key : Key)
    (hkey : m.getModel.key = some key) :
    create env w m = ⟨.returned (some .alreadyCreated), w, m⟩ := by
  cases m with
  | mk tn model fs =>
    simp only [Modelable.getModel] at hkey
    simp only [create, hkey]

theorem create_keyed_already_created_witness :
    (person (registeredModel "Person" [2] (some (NewKey "Person" "" 7 [])))
        (address (registeredModel "Address" [] none))).getModel.key
      = some (NewKey "Person" "" 7 []) ∧
    create countingEnv []
        (person (registeredModel "Person" [2] (some (NewKey "Person" "" 7 [])))
          (address (registeredModel "Address" [] none)))
      = ⟨.returned (some .alreadyCreated), [],
          person (registeredModel "Person" [2] (some (NewKey "Person" "" 7 [])))
            (address (registeredModel "Address" [] none))⟩ :=
  ⟨rfl, create_keyed_already_created countingEnv [] _ (NewKey "Person" "" 7 []) rfl⟩

/-- The `update` of a modelable without a key returns the missing-key error and touches
nothing. -/
theorem update_unkeyed_missing_key (env : Env) (w : World) (m : Modelable)
    (hkey : m.getModel.key = none) :
    update env w m = ⟨.returned (some .missingKeyUpdate), w, m⟩ := by
  cases m with
  | mk tn model fs =>
    simp only [Modelable.getModel] at hkey
    simp only [update, hkey]

/-- The `read` of a modelable without a key whose `Model` has its structure returns the
missing-key error naming the struct and touches nothing. -/
theorem read_unkeyed_missing_key (env : Env) (w : World) (m : Modelable) (s : Structure)
    (hkey : m.getModel.key = none) (hs : m.getModel.struct = some s) :
    read env w m = ⟨.returned (some (.missingKeyRead s.structName)), w, m⟩ := by
  cases m with
  | mk tn model fs =>
    simp only [Modelable.getModel] at hkey hs
    simp only [read, hkey, hs]

/-- The `read` of a modelable without a key whose `Model` has no structure panics: building
the error message reads `model.structName` through the nil `*structure`. -/
theorem read_unkeyed_without_structure (env : Env) (w : World) (m : Modelable)
    (hkey : m.getModel.key = none) (hs : m.getModel.struct = none) :
    read env w m = ⟨.panicked .nilPointerDereference, w, m⟩ := by
  cases m with
  | mk tn model fs =>
    simp only [Modelable.getModel] at hkey hs
    simp only [read, hkey, hs]

/-- C2: the zero `Address{}` has no key, and `read` does not return the missing-key error for it:
it panics.  So does the `read` of a keyed, registered `Person` whose reference map leads to that
address, after the `Get` of the person. -/
theorem read_unkeyed_zero_model_panics (env : Env) (w : World) :
    (address zeroModel).getModel.key = none ∧
    update env w (address zeroModel) = ⟨.returned (some .missingKeyUpdate), w, address zeroModel⟩ ∧
    read env w (address zeroModel) = ⟨.panicked .nilPointerDereference, w, address zeroModel⟩ ∧
    (read countingEnv []
        (person (registeredModel "Person" [2] (some (NewKey "Person" "" 7 [])))
          (address zeroModel))).outcome = .panicked .nilPointerDereference ∧
    (read countingEnv []
        (person (registeredModel "Person" [2] (some (NewKey "Person" "" 7 [])))
          (address zeroModel))).world = [.get (NewKey "Person" "" 7 [])] :=
  ⟨rfl, rfl, rfl, rfl, rfl⟩

/-! ## Creating a fresh reference tree -/

theorem fresh_mk (tn : String) (model : Model) (fs : Fields) :
    fresh (.mk tn model fs) = true ↔
      model.Registered = true ∧ model.key = none ∧
        ∃ s, model.struct = some s ∧ s.references.Nodup ∧
          (∀ k ∈ s.references, ∃ ref, fs.resolve k = some ref ∧ fresh ref = true) ∧
          s.structName = tn := by
  have hat : ∀ k, freshAt fs k = true ↔ ∃ ref, fs.resolve k = some ref ∧ fresh ref = true := by
    intro k
    rw [freshAt_resolve]
    cases fs.resolve k <;> simp
  cases hs : model.struct with
  | none => simp [fresh, hs]
  | some s =>
    simp only [fresh, hs, Bool.and_eq_true, Option.isNone_iff_eq_none, decide_eq_true_eq,
      List.all_eq_true, hat, Option.some.injEq, exists_eq_left', beq_iff_eq]
    tauto

theorem answersFrom_append (env : Env) :
    ∀ (a pre b : World),
      answersFrom env pre (a ++ b) = (answersFrom env pre a && answersFrom env (pre ++ a) b)
  | [], pre, b => by simp [answersFrom]
  | op :: a, pre, b => by
    have h := answersFrom_append env a (pre ++ [op]) b
    rw [List.append_assoc, List.singleton_append] at h
    cases op <;> simp [answersFrom, h, Bool.and_assoc]

/-- The statement about one run of `create` over a fresh tree that the induction carries. -/
theorem create_fresh_aux (env : Env)
    (hput : ∀ w k src, ∃ key, env.put w k src = (some key, none)) :
    ∀ m, fresh m = true → ∀ w,
      (create env w m).outcome = .returned none ∧
      ∃ ops, (create env w m).world = w ++ ops ∧
        ops.map Op.putKey = (postOrder m).map (fun r => some (NewIncompleteKey r.structName)) ∧
        (postOrder (create env w m).value).map (fun r => r.getModel.key) = ops.map Op.answeredKey ∧
        (∀ o ∈ ops, (Op.answeredKey o).isSome = true) ∧
        answersFrom env w ops = true := by
  intro m
  induction m using Modelable.induction_on_references with
  | step tn model fs ih =>
    intro hm w
    obtain ⟨hreg, hkey, s, hs, hnodup, hrefs, _⟩ := (fresh_mk tn model fs).1 hm
    -- the loop over the references
    have loop : ∀ ks : List Nat, ks.Nodup → (∀ k ∈ ks, k ∈ s.references) →
        ∀ (w1 : World) (acc : Fields), (∀ k ∈ ks, acc.resolve k = fs.resolve k) →
          (rangeReferences (fun k w2 => createOrUpdateAt env w2 fs k) ks w1 acc).outcome
              = .returned none ∧
          ∃ ops, (rangeReferences (fun k w2 => createOrUpdateAt env w2 fs k) ks w1 acc).world
              = w1 ++ ops ∧
            ops.map Op.putKey = (ks.flatMap (fun k => postOrderAt fs k)).map
              (fun r => some (NewIncompleteKey r.structName)) ∧
            (ks.flatMap (fun k => postOrderAt
                (rangeReferences (fun k w2 => createOrUpdateAt env w2 fs k) ks w1 acc).value k)).map
              (fun r => r.getModel.key) = ops.map Op.answeredKey ∧
            (∀ o ∈ ops, (Op.answeredKey o).isSome = true) ∧
            answersFrom env w1 ops = true ∧
            ∀ j, j ∉ ks →
              (rangeReferences (fun k w2 => createOrUpdateAt env w2 fs k) ks w1 acc).value.resolve j
                = acc.resolve j := by
      intro ks
      induction ks with
      | nil =>
        intro _ _ w1 acc _
        refine ⟨rfl, [], ?_, rfl, rfl, ?_, rfl, ?_⟩
        · simp [rangeReferences]
        · simp
        · intro j _; rfl
      | cons k ks ihks =>
        intro hnd hsub w1 acc hacc
        have hk : k ∉ ks := (List.nodup_cons.1 hnd).1
        obtain ⟨ref, href, hfresh⟩ := hrefs k (hsub k (List.mem_cons_self k ks))
        obtain ⟨hout, ops1, hw1, hput1, hkeys1, hans1, hcons1⟩ := ih k ref href hfresh w1
        have hrefm : fresh ref = true := hfresh
        have hrk : ref.getModel.key = none ∧ ref.getModel.Registered = true := by
          cases ref with
          | mk tn1 model1 fs1 =>
            obtain ⟨h1, h2, _⟩ := (fresh_mk tn1 model1 fs1).1 hrefm
            exact ⟨h2, h1⟩
        have hvisit : createOrUpdateAt env w1 fs k =
            ⟨(create env w1 ref).outcome, (create env w1 ref).world,
              some (create env w1 ref).value⟩ := by
          rw [createOrUpdateAt_resolve, href]
          simp only [hrk.1, hrk.2, if_true]
        have hstep : rangeReferences (fun k w2 => createOrUpdateAt env w2 fs k) (k :: ks) w1 acc =
            rangeReferences (fun k w2 => createOrUpdateAt env w2 fs k) ks (create env w1 ref).world
              (acc.set k (create env w1 ref).value) := by
          simp only [rangeReferences, hvisit, hout]
        have hacc1 : ∀ j ∈ ks, (acc.set k (create env w1 ref).value).resolve j = fs.resolve j := by
          intro j hj
          have hne : j ≠ k := fun h => hk (h ▸ hj)
          rw [Fields.resolve_set_other acc k j _ hne]
          exact hacc j (List.mem_cons_of_mem k hj)
        obtain ⟨hout2, ops2, hw2, hput2, hkeys2, hans2, hcons2, hframe2⟩ :=
          ihks (List.nodup_cons.1 hnd).2 (fun j hj => hsub j (List.mem_cons_of_mem k hj))
            (create env w1 ref).world (acc.set k (create env w1 ref).value) hacc1
        rw [hstep]
        refine ⟨hout2, ops1 ++ ops2, ?_, ?_, ?_, ?_, ?_, ?_⟩
        · rw [hw2, hw1, List.append_assoc]
        · rw [List.map_append, hput1, hput2, List.flatMap_cons, List.map_append,
            postOrderAt_resolve fs k, href]
        · have hself : (rangeReferences (fun k w2 => createOrUpdateAt env w2 fs k) ks
              (create env w1 ref).world (acc.set k (create env w1 ref).value)).value.resolve k
              = some (create env w1 ref).value := by
            rw [hframe2 k hk]
            exact Fields.resolve_set_self acc k ref _
              ((hacc k (List.mem_cons_self k ks)).trans href)
          rw [List.flatMap_cons, List.map_append, List.map_append, postOrderAt_resolve, hself,
            hkeys1, hkeys2]
        · intro o ho
          rcases List.mem_append.1 ho with h | h
          · exact hans1 o h
          · exact hans2 o h
        · rw [answersFrom_append, hcons1, ← hw1, hcons2]
          rfl
        · intro j hj
          have hjk : j ≠ k := fun h => hj (h ▸ List.mem_cons_self k ks)
          have hjks : j ∉ ks := fun h => hj (List.mem_cons_of_mem k h)
          rw [hframe2 j hjks, Fields.resolve_set_other acc k j _ hjk]
    obtain ⟨hout, ops, hw, hputs, hkeys, hans, hcons, _⟩ :=
      loop s.references hnodup (fun _ h => h) w fs (fun _ _ => rfl)
    obtain ⟨key, hanswer⟩ := hput (w ++ ops) (NewIncompleteKey s.structName)
      (Modelable.mk tn model
        (rangeReferences (fun k w2 => createOrUpdateAt env w2 fs k) s.references w fs).value)
    have hcreate : create env w (.mk tn model fs) =
        ⟨.returned none,
          w ++ ops ++ [.put (NewIncompleteKey s.structName)
            (Modelable.mk tn model
              (rangeReferences (fun k w2 => createOrUpdateAt env w2 fs k) s.references w fs).value)
            (some key, none)],
          .mk tn { model with key := some key }
            (rangeReferences (fun k w2 => createOrUpdateAt env w2 fs k) s.references w fs).value⟩ := by
      simp only [create, hkey, rangeModelReferences, hs, hout, hw, hanswer]
    rw [hcreate]
    refine ⟨rfl, ops ++ [.put (NewIncompleteKey s.structName)
      (Modelable.mk tn model
        (rangeReferences (fun k w2 => createOrUpdateAt env w2 fs k) s.references w fs).value)
      (some key, none)], ?_, ?_, ?_, ?_, ?_⟩
    · simp
    · simp only [List.map_append, hputs, postOrder, hs, List.map_cons, List.map_nil, Op.putKey,
        Modelable.structName, Modelable.getModel]
    · simp only [postOrder, hs, List.map_append, List.map_cons, List.map_nil, Op.answeredKey]
      rw [hkeys]
      rfl
    · intro o ho
      rcases List.mem_append.1 ho with h | h
      · exact hans o h
      · simp only [List.mem_singleton] at h
        subst h
        rfl
    · rw [answersFrom_append, hcons]
      simp [answersFrom, hanswer]

/-! ## Updating a reference tree -/

theorem wired_mk (tn : String) (model : Model) (fs : Fields) :
    wired (.mk tn model fs) = true ↔
      ∃ s, model.struct = some s ∧
        ∀ k ∈ s.references, ∃ ref, fs.resolve k = some ref ∧
          ((ref.getModel.key = none ∧ ref.getModel.Registered = false) ∨ wired ref = true) := by
  have hat : ∀ k, wiredAt fs k = true ↔ ∃ ref, fs.resolve k = some ref ∧
      ((ref.getModel.key = none ∧ ref.getModel.Registered = false) ∨ wired ref = true) := by
    intro k
    rw [wiredAt_resolve]
    cases fs.resolve k <;> simp
  cases hs : model.struct with
  | none => simp [wired, hs]
  | some s => simp only [wired, hs, List.all_eq_true, hat, Option.some.injEq, exists_eq_left']

/-- The statement about one run of `create` or `update` over a wired tree that the induction
carries. -/
theorem persist_wired_aux (env : Env) (hput : ∀ w k src, (env.put w k src).2 = none) :
    ∀ m, wired m = true → ∀ w,
      (m.getModel.key = none →
        (create env w m).outcome = .returned none ∧
        ∃ ops, (create env w m).world = w ++ ops ∧ ∀ o ∈ ops, Op.atHeldKey o = true) ∧
      (∀ K, m.getModel.key = some K →
        (update env w m).outcome = .returned none ∧
        ∃ ops src, (update env w m).world = w ++ ops ++ [.put K src (env.put (w ++ ops) K src)] ∧
          src.getModel = m.getModel ∧ src.typeName = m.typeName ∧
          (update env w m).value.getModel.key = (env.put (w ++ ops) K src).1 ∧
          (∀ o ∈ ops, Op.atHeldKey o = true) ∧
          ∀ s, m.getModel.struct = some s → ∀ k ∈ s.references, ∀ ref Ki,
            m.fields.resolve k = some ref → ref.getModel.key = some Ki →
            ∃ pre post src1 answer, ops = pre ++ Op.put Ki src1 answer :: post ∧
              src1.getModel = ref.getModel ∧ src1.typeName = ref.typeName) := by
  intro m
  induction m using Modelable.induction_on_references with
  | step tn model fs ih =>
    intro hm w
    obtain ⟨s, hs, hrefs⟩ := (wired_mk tn model fs).1 hm
    have loop : ∀ ks : List Nat, (∀ k ∈ ks, k ∈ s.references) → ∀ (w1 : World) (acc : Fields),
        (rangeReferences (fun k w2 => createOrUpdateAt env w2 fs k) ks w1 acc).outcome
            = .returned none ∧
        ∃ ops, (rangeReferences (fun k w2 => createOrUpdateAt env w2 fs k) ks w1 acc).world
            = w1 ++ ops ∧
          (∀ o ∈ ops, Op.atHeldKey o = true) ∧
          ∀ k ∈ ks, ∀ ref Ki, fs.resolve k = some ref → ref.getModel.key = some Ki →
            ∃ pre post src1 answer, ops = pre ++ Op.put Ki src1 answer :: post ∧
              src1.getModel = ref.getModel ∧ src1.typeName = ref.typeName := by
      intro ks
      induction ks with
      | nil =>
        intro _ w1 acc
        refine ⟨rfl, [], ?_, ?_, ?_⟩
        · simp [rangeReferences]
        · simp
        · simp
      | cons k ks ihks =>
        intro hsub w1 acc
        obtain ⟨ref, href, hwired⟩ := hrefs k (hsub k (List.mem_cons_self k ks))
        -- what the visit of `k` does
        have hvisit : ∃ ops1 v,
            createOrUpdateAt env w1 fs k = ⟨.returned none, w1 ++ ops1, some v⟩ ∧
            (∀ o ∈ ops1, Op.atHeldKey o = true) ∧
            ∀ Ki, ref.getModel.key = some Ki →
              ∃ pre src1 answer, ops1 = pre ++ [Op.put Ki src1 answer] ∧
                src1.getModel = ref.getModel ∧ src1.typeName = ref.typeName := by
          rw [createOrUpdateAt_resolve, href]
          cases hk : ref.getModel.key with
          | none =>
            cases hr : ref.getModel.Registered with
            | false =>
              refine ⟨[], ref, ?_, ?_, ?_⟩
              · simp [hk, hr]
              · simp
              · intro Ki h; cases h
            | true =>
              have hw : wired ref = true := by
                rcases hwired with h | h
                · rw [hr] at h; cases h.2
                · exact h
              obtain ⟨hout, ops1, hw1, hheld⟩ := (ih k ref href hw w1).1 hk
              refine ⟨ops1, (create env w1 ref).value, ?_, hheld, ?_⟩
              · simp only [hk, hr, if_true, hout, hw1]
              · intro Ki h; cases h
          | some K =>
            have hw : wired ref = true := by
              rcases hwired with h | h
              · rw [hk] at h; cases h.1
              · exact h
            obtain ⟨hout, ops1, src, hw1, hsrc, htn, _, hheld, _⟩ := (ih k ref href hw w1).2 K hk
            refine ⟨ops1 ++ [.put K src (env.put (w1 ++ ops1) K src)], (update env w1 ref).value,
              ?_, ?_, ?_⟩
            · simp only [hk, hout, hw1, List.append_assoc]
            · intro o ho
              rcases List.mem_append.1 ho with h | h
              · exact hheld o h
              · simp only [List.mem_singleton] at h
                subst h
                simp only [Op.atHeldKey, hsrc, hk, beq_self_eq_true]
            · intro Ki hKi
              cases hKi
              exact ⟨ops1, src, _, rfl, hsrc, htn⟩
        obtain ⟨ops1, v, hv, hheld1, hput1⟩ := hvisit
        have hstep : rangeReferences (fun k w2 => createOrUpdateAt env w2 fs k) (k :: ks) w1 acc =
            rangeReferences (fun k w2 => createOrUpdateAt env w2 fs k) ks (w1 ++ ops1)
              (acc.set k v) := by
          simp only [rangeReferences, hv]
        obtain ⟨hout2, ops2, hw2, hheld2, hput2⟩ :=
          ihks (fun j hj => hsub j (List.mem_cons_of_mem k hj)) (w1 ++ ops1) (acc.set k v)
        rw [hstep]
        refine ⟨hout2, ops1 ++ ops2, ?_, ?_, ?_⟩
        · rw [hw2, List.append_assoc]
        · intro o ho
          rcases List.mem_append.1 ho with h | h
          · exact hheld1 o h
          · exact hheld2 o h
        · intro j hj ref1 Ki href1 hKi
          rcases List.mem_cons.1 hj with h | h
          · subst h
            rw [href] at href1
            cases href1
            obtain ⟨pre, src1, answer, hops, h1, h2⟩ := hput1 Ki hKi
            exact ⟨pre, ops2, src1, answer, by rw [hops]; simp, h1, h2⟩
          · obtain ⟨pre, post, src1, answer, hops, h1, h2⟩ := hput2 j h ref1 Ki href1 hKi
            exact ⟨ops1 ++ pre, post, src1, answer, by rw [hops]; simp, h1, h2⟩
    obtain ⟨hout, ops, hw, hheld, hputs⟩ := loop s.references (fun _ h => h) w fs
    refine ⟨?_, ?_⟩
    · intro hkey
      simp only [Modelable.getModel] at hkey
      have hanswer := hput (w ++ ops) (NewIncompleteKey s.structName)
        (Modelable.mk tn model
          (rangeReferences (fun k w2 => createOrUpdateAt env w2 fs k) s.references w fs).value)
      have hcreate : create env w (.mk tn model fs) =
          ⟨.returned none,
            w ++ ops ++ [.put (NewIncompleteKey s.structName)
              (Modelable.mk tn model
                (rangeReferences (fun k w2 => createOrUpdateAt env w2 fs k) s.references w fs).value)
              (env.put (w ++ ops) (NewIncompleteKey s.structName)
                (Modelable.mk tn model
                  (rangeReferences (fun k w2 => createOrUpdateAt env w2 fs k)
                    s.references w fs).value))],
            .mk tn { model with key := (env.put (w ++ ops) (NewIncompleteKey s.structName)
                (Modelable.mk tn model
                  (rangeReferences (fun k w2 => createOrUpdateAt env w2 fs k)
                    s.references w fs).value)).1 }
              (rangeReferences (fun k w2 => createOrUpdateAt env w2 fs k) s.references w fs).value⟩ := by
        simp only [create, hkey, rangeModelReferences, hs, hout, hw, hanswer]
      rw [hcreate]
      refine ⟨rfl, ops ++ [.put (NewIncompleteKey s.structName)
        (Modelable.mk tn model
          (rangeReferences (fun k w2 => createOrUpdateAt env w2 fs k) s.references w fs).value)
        (env.put (w ++ ops) (NewIncompleteKey s.structName)
          (Modelable.mk tn model
            (rangeReferences (fun k w2 => createOrUpdateAt env w2 fs k)
              s.references w fs).value))], ?_, ?_⟩
      · simp
      · intro o ho
        rcases List.mem_append.1 ho with h | h
        · exact hheld o h
        · simp only [List.mem_singleton] at h
          subst h
          simp only [Op.atHeldKey, Modelable.getModel, hkey]
    · intro K hkey
      simp only [Modelable.getModel] at hkey
      have hanswer := hput (w ++ ops) K
        (Modelable.mk tn model
          (rangeReferences (fun k w2 => createOrUpdateAt env w2 fs k) s.references w fs).value)
      have hupdate : update env w (.mk tn model fs) =
          ⟨.returned none,
            w ++ ops ++ [.put K
              (Modelable.mk tn model
                (rangeReferences (fun k w2 => createOrUpdateAt env w2 fs k) s.references w fs).value)
              (env.put (w ++ ops) K
                (Modelable.mk tn model
                  (rangeReferences (fun k w2 => createOrUpdateAt env w2 fs k)
                    s.references w fs).value))],
            .mk tn { model with key := (env.put (w ++ ops) K
                (Modelable.mk tn model
                  (rangeReferences (fun k w2 => createOrUpdateAt env w2 fs k)
                    s.references w fs).value)).1 }
              (rangeReferences (fun k w2 => createOrUpdateAt env w2 fs k) s.references w fs).value⟩ := by
        simp only [update, hkey, rangeModelReferences, hs, hout, hw, hanswer]
      rw [hupdate]
      refine ⟨rfl, ops, Modelable.mk tn model
        (rangeReferences (fun k w2 => createOrUpdateAt env w2 fs k) s.references w fs).value,
        rfl, rfl, rfl, rfl, hheld, ?_⟩
      intro s1 hs1 k hk ref Ki href hKi
      simp only [Modelable.getModel] at hs1
      rw [hs] at hs1
      cases hs1
      exact hputs k hk ref Ki href hKi

/-! ## The claims on create and update -/

theorem postOrder_last (m : Modelable) : (postOrder m).getLast? = some m := by
  cases m with
  | mk tn model fs => simp [postOrder]

/-- Every record of a fresh tree carries the name of its type as struct name. -/
theorem fresh_postOrder_structName :
    ∀ m, fresh m = true → ∀ r ∈ postOrder m, r.structName = r.typeName := by
  intro m
  induction m using Modelable.induction_on_references with
  | step tn model fs ih =>
    intro hm r hr
    obtain ⟨_, _, s, hs, _, hrefs, hname⟩ := (fresh_mk tn model fs).1 hm
    simp only [postOrder, hs, List.mem_append, List.mem_flatMap, List.mem_singleton] at hr
    rcases hr with ⟨k, hk, hrk⟩ | h
    · obtain ⟨ref, href, hfresh⟩ := hrefs k hk
      rw [postOrderAt_resolve, href] at hrk
      exact ih k ref href hfresh r hrk
    · subst h
      simp only [Modelable.structName, Modelable.getModel, hs, Modelable.typeName, hname]

/-- C3: `create` on a fresh reference tree (every record registered and without a key), with a
datastore whose `Put` always succeeds and answers with a key, returns nil and appends to the
trace nothing but inserts: one `Put` at the incomplete key of the type name for every record of
the tree, in post-order, so that every reference is inserted before its parent and the root
last.  Each `Put` carries the answer of the datastore, and afterwards the keys of the records
of the tree, the root included, are those answers, none of them nil. -/
theorem create_fresh_tree_inserts_in_post_order (env : Env) (w : World) (m : Modelable)
    (hput : ∀ w k src, ∃ key, env.put w k src = (some key, none)) (hm : fresh m = true) :
    (create env w m).outcome = .returned none ∧
    ∃ ops, (create env w m).world = w ++ ops ∧
      ops.map Op.putKey = (postOrder m).map (fun r => some (NewIncompleteKey r.typeName)) ∧
      ops.length = (postOrder m).length ∧
      (ops.getLast?).map Op.putKey = some (some (NewIncompleteKey m.typeName)) ∧
      answersFrom env w ops = true ∧
      (postOrder (create env w m).value).map (fun r => r.getModel.key) = ops.map Op.answeredKey ∧
      (∀ r ∈ postOrder (create env w m).value, r.getModel.key.isSome = true) ∧
      (create env w m).value.getModel.key.isSome = true := by
  obtain ⟨hout, ops, hw, hputs0, hkeys, hans, hcons⟩ := create_fresh_aux env hput m hm w
  have hputs : ops.map Op.putKey
      = (postOrder m).map (fun r => some (NewIncompleteKey r.typeName)) := by
    rw [hputs0]
    exact List.map_congr_left (fun r hr => by rw [fresh_postOrder_structName m hm r hr])
  have hall : ∀ r ∈ postOrder (create env w m).value, r.getModel.key.isSome = true := by
    intro r hr
    have h1 : r.getModel.key ∈ (postOrder (create env w m).value).map (fun r => r.getModel.key) :=
      List.mem_map.2 ⟨r, hr, rfl⟩
    rw [hkeys] at h1
    obtain ⟨o, ho, hoe⟩ := List.mem_map.1 h1
    rw [← hoe]
    exact hans o ho
  refine ⟨hout, ops, hw, hputs, ?_, ?_, hcons, hkeys, hall, ?_⟩
  · have h := congrArg List.length hputs
    simpa using h
  · have h := congrArg List.getLast? hputs
    rw [List.getLast?_map, List.getLast?_map, postOrder_last] at h
    exact h
  · exact hall _ (List.mem_of_getLast?_eq_some (postOrder_last _))

theorem create_fresh_tree_inserts_in_post_order_witness :
    (∀ w k src, ∃ key, countingEnv.put w k src = (some key, none)) ∧
    fresh (person (registeredModel "Person" [2] none) (address (registeredModel "Address" [] none)))
      = true ∧
    (create countingEnv []
        (person (registeredModel "Person" [2] none)
          (address (registeredModel "Address" [] none)))).outcome = .returned none ∧
    ∃ ops, (create countingEnv []
        (person (registeredModel "Person" [2] none)
          (address (registeredModel "Address" [] none)))).world = [] ++ ops ∧
      ops.map Op.putKey = [some (NewIncompleteKey "Address"), some (NewIncompleteKey "Person")] ∧
      ops.map Op.answeredKey
        = [some (NewKey "Address" "" 1 []), some (NewKey "Person" "" 2 [])] ∧
      (create countingEnv []
        (person (registeredModel "Person" [2] none)
          (address (registeredModel "Address" [] none)))).value
        = person (registeredModel "Person" [2] (some (NewKey "Person" "" 2 [])))
            (address (registeredModel "Address" [] (some (NewKey "Address" "" 1 [])))) :=
  ⟨fun _ _ _ => ⟨_, rfl⟩, rfl,
    (create_fresh_tree_inserts_in_post_order countingEnv []
      (person (registeredModel "Person" [2] none) (address (registeredModel "Address" [] none)))
      (fun _ _ _ => ⟨_, rfl⟩) rfl).1,
    ⟨_, rfl, rfl, rfl, rfl⟩⟩

/-- C4: `update` on a record with key `K` whose reference tree has its structures, with a
datastore whose `Put` succeeds, returns nil; its trace ends with the one `Put` of the record at
`K`, whose answer gives the key the record holds afterwards; every reference of its reference
map that holds a key `Ki` was `Put` at `Ki` before that, whatever its field values; and no
`Put` of a record that holds a key is made at another key, an incomplete one in particular. -/
theorem update_overwrites_keyed_references (env : Env) (w : World) (m : Modelable) (K : Key)
    (s : Structure) (hput : ∀ w k src, (env.put w k src).2 = none) (hm : wired m = true)
    (hkey : m.getModel.key = some K) (hs : m.getModel.struct = some s) :
    (update env w m).outcome = .returned none ∧
    ∃ ops src, (update env w m).world = w ++ ops ++ [.put K src (env.put (w ++ ops) K src)] ∧
      src.getModel = m.getModel ∧ src.typeName = m.typeName ∧
      (update env w m).value.getModel.key = (env.put (w ++ ops) K src).1 ∧
      (∀ o ∈ ops ++ [.put K src (env.put (w ++ ops) K src)], Op.atHeldKey o = true) ∧
      ∀ k ∈ s.references, ∀ ref Ki, m.fields.resolve k = some ref → ref.getModel.key = some Ki →
        ∃ pre post src1 answer, ops = pre ++ Op.put Ki src1 answer :: post ∧
          src1.getModel = ref.getModel ∧ src1.typeName = ref.typeName := by
  obtain ⟨hout, ops, src, hw, hsrc, htn, hk, hheld, hrefs⟩ :=
    (persist_wired_aux env hput m hm w).2 K hkey
  refine ⟨hout, ops, src, hw, hsrc, htn, hk, ?_, hrefs s hs⟩
  intro o ho
  rcases List.mem_append.1 ho with h | h
  · exact hheld o h
  · simp only [List.mem_singleton] at h
    subst h
    simp only [Op.atHeldKey, hsrc, hkey, beq_self_eq_true]

theorem update_overwrites_keyed_references_witness :
    (∀ w k src, (countingEnv.put w k src).2 = none) ∧
    wired (person (registeredModel "Person" [2] (some (NewKey "Person" "" 7 [])))
      (address (registeredModel "Address" [] (some (NewKey "Address" "" 3 []))))) = true ∧
    (update countingEnv []
        (person (registeredModel "Person" [2] (some (NewKey "Person" "" 7 [])))
          (address (registeredModel "Address" [] (some (NewKey "Address" "" 3 [])))))).outcome
      = .returned none ∧
    (update countingEnv []
        (person (registeredModel "Person" [2] (some (NewKey "Person" "" 7 [])))
          (address (registeredModel "Address" [] (some (NewKey "Address" "" 3 [])))))).world.map
        Op.putKey
      = [some (NewKey "Address" "" 3 []), some (NewKey "Person" "" 7 [])] :=
  ⟨fun _ _ _ => rfl, rfl,
    (update_overwrites_keyed_references countingEnv []
      (person (registeredModel "Person" [2] (some (NewKey "Person" "" 7 [])))
        (address (registeredModel "Address" [] (some (NewKey "Address" "" 3 [])))))
      (NewKey "Person" "" 7 []) ⟨⟨"Person", []⟩, [2]⟩ (fun _ _ _ => rfl) rfl rfl rfl).1,
    rfl⟩

/-! ## References that are not registered -/

/-- A reference without a key that is not registered is left alone by the loop of
`createOrUpdateReferences`: nothing is added to the trace. -/
theorem createOrUpdateAt_unregistered_unkeyed (env : Env) (w : World) (fs : Fields) (k : Nat)
    (ref : Modelable) (href : fs.resolve k = some ref) (hkey : ref.getModel.key = none)
    (hreg : ref.getModel.Registered = false) :
    createOrUpdateAt env w fs k = ⟨.returned none, w, some ref⟩ := by
  rw [createOrUpdateAt_resolve, href]
  simp [hkey, hreg]

/-- A reference that holds a key is updated by the loop of `createOrUpdateReferences`, whatever
its `Registered` flag. -/
theorem createOrUpdateAt_keyed (env : Env) (w : World) (fs : Fields) (k : Nat)
    (ref : Modelable) (key : Key) (href : fs.resolve k = some ref)
    (hkey : ref.getModel.key = some key) :
    createOrUpdateAt env w fs k =
      ⟨(update env w ref).outcome, (update env w ref).world, some (update env w ref).value⟩ := by
  rw [createOrUpdateAt_resolve, href]
  simp [hkey]

/-- C5: a `Person` with key 7 whose `Home` reference is not registered and holds the key 3.
`update` and `Update` of the person write the address at key 3 before they write the person, and
`create` of a person without a key does the same before it inserts the person. -/
theorem update_writes_unregistered_keyed_reference :
    (unregisteredAddress (some (NewKey "Address" "" 3 []))).getModel.Registered = false ∧
    (update countingEnv []
        (person (registeredModel "Person" [2] (some (NewKey "Person" "" 7 [])))
          (unregisteredAddress (some (NewKey "Address" "" 3 []))))).world.map Op.putKey
      = [some (NewKey "Address" "" 3 []), some (NewKey "Person" "" 7 [])] ∧
    (Update countingEnv []
        (person (registeredModel "Person" [2] (some (NewKey "Person" "" 7 [])))
          (unregisteredAddress (some (NewKey "Address" "" 3 []))))).world.map Op.putKey
      = [none, some (NewKey "Address" "" 3 []), some (NewKey "Person" "" 7 []), none, none] ∧
    (Update countingEnv []
        (person (registeredModel "Person" [2] (some (NewKey "Person" "" 7 [])))
          (unregisteredAddress (some (NewKey "Address" "" 3 []))))).outcome = .returned none ∧
    (create countingEnv []
        (person (registeredModel "Person" [2] none)
          (unregisteredAddress (some (NewKey "Address" "" 3 []))))).world.map Op.putKey
      = [some (NewKey "Address" "" 3 []), some (NewIncompleteKey "Person")] :=
  ⟨rfl, rfl, rfl, rfl, rfl⟩

/-- C6: a registered `Person` with key 7 whose `Home` reference is not registered and has no
key.  The `Get` of the person succeeds and no `Get` is made for the address, but `read` of the
person does not succeed: it panics when the address is the zero `Address{}`, and it returns the
missing-key error of the address when the address has its structure. -/
theorem read_fails_on_unregistered_reference :
    (countingEnv.get [] (NewKey "Person" "" 7 [])).2 = none ∧
    read countingEnv []
        (person (registeredModel "Person" [2] (some (NewKey "Person" "" 7 []))) (address zeroModel))
      = ⟨.panicked .nilPointerDereference, [.get (NewKey "Person" "" 7 [])],
          person (registeredModel "Person" [2] (some (NewKey "Person" "" 7 [])))
            (address zeroModel)⟩ ∧
    (unregisteredAddress none).getModel.Registered = false ∧
    read countingEnv []
        (person (registeredModel "Person" [2] (some (NewKey "Person" "" 7 [])))
          (unregisteredAddress none))
      = ⟨.returned (some (.missingKeyRead "Address")), [.get (NewKey "Person" "" 7 [])],
          person (registeredModel "Person" [2] (some (NewKey "Person" "" 7 [])))
            (unregisteredAddress none)⟩ :=
  ⟨rfl, rfl, rfl, rfl⟩

/-! ## The public operations -/

/-- An unregistered modelable makes `Create`, `Update` and `Read` panic with the error they
build, with the trace and the modelable untouched: no transaction, no memcache call. -/
theorem public_operations_panic_unregistered (env : Env) (w : World) (m : Modelable)
    (hreg : m.getModel.Registered = false) :
    Create env w m = ⟨.panicked (.error (.unregistered "create")), w, m⟩ ∧
    Update env w m = ⟨.panicked (.error (.unregistered "Update")), w, m⟩ ∧
    Read env w m = ⟨.panicked (.error (.unregistered "Update")), w, m⟩ := by
  simp [Create, Update, Read, hreg]

/-- A registered modelable passes the registration check of `Create`, `Update` and `Read`. -/
theorem public_operations_registered (env : Env) (w : World) (m : Modelable)
    (hreg : m.getModel.Registered = true) :
    Create env w m = saveDeferred env (RunInTransaction env w m (create env)) ∧
    Update env w m = saveDeferred env (RunInTransaction env w m (update env)) ∧
    Read env w m =
      match (env.loadFromMemcache w m).2 with
      | none => ⟨.returned none, w ++ [.loadFromMemcache m.getModel.key],
          (env.loadFromMemcache w m).1⟩
      | some _ => RunInTransaction env (w ++ [.loadFromMemcache m.getModel.key])
          (env.loadFromMemcache w m).1 (read env) := by
  simp [Create, Update, Read, hreg]

/-- With a memcache whose write fails, the transaction of `Create` (respectively `Update`)
succeeds for a registered person and `Create` (respectively `Update`) returns the memcache
error, not nil. -/
theorem Create_cache_error_is_returned :
    (person (registeredModel "Person" [2] none)
      (address (registeredModel "Address" [] none))).getModel.Registered = true ∧
    (RunInTransaction failingCacheEnv []
        (person (registeredModel "Person" [2] none) (address (registeredModel "Address" [] none)))
        (create failingCacheEnv)).outcome = .returned none ∧
    (Create failingCacheEnv []
        (person (registeredModel "Person" [2] none)
          (address (registeredModel "Address" [] none)))).outcome
      = .returned (some (.memcache 1)) ∧
    (Create failingCacheEnv []
        (person (registeredModel "Person" [2] none)
          (address (registeredModel "Address" [] none)))).outcome ≠ .returned none ∧
    (RunInTransaction failingCacheEnv []
        (person (registeredModel "Person" [2] (some (NewKey "Person" "" 7 [])))
          (address (registeredModel "Address" [] (some (NewKey "Address" "" 3 [])))))
        (update failingCacheEnv)).outcome = .returned none ∧
    (Update failingCacheEnv []
        (person (registeredModel "Person" [2] (some (NewKey "Person" "" 7 [])))
          (address (registeredModel "Address" [] (some (NewKey "Address" "" 3 [])))))).outcome
      ≠ .returned none :=
  ⟨rfl, rfl, rfl, by decide, rfl, by decide⟩

/-- C7, as amended: for a registered modelable, when the transaction run by `Create`
(respectively `Update`) returns nil, `Create` (respectively `Update`) returns what
`saveInMemcache` returns for the state the transaction left: nil when the memcache write
succeeds, its error when it fails.  The memcache write is then the last call of the trace. -/
theorem Create_Update_return_cache_result (env : Env) (w : World) (m : Modelable)
    (hreg : m.getModel.Registered = true) :
    ((RunInTransaction env w m (create env)).outcome = .returned none →
      (Create env w m).outcome =
          .returned (env.saveInMemcache (RunInTransaction env w m (create env)).world
            (RunInTransaction env w m (create env)).value) ∧
      (Create env w m).world = (RunInTransaction env w m (create env)).world ++
          [.saveInMemcache (RunInTransaction env w m (create env)).value.getModel.key]) ∧
    ((RunInTransaction env w m (update env)).outcome = .returned none →
      (Update env w m).outcome =
          .returned (env.saveInMemcache (RunInTransaction env w m (update env)).world
            (RunInTransaction env w m (update env)).value) ∧
      (Update env w m).world = (RunInTransaction env w m (update env)).world ++
          [.saveInMemcache (RunInTransaction env w m (update env)).value.getModel.key]) := by
  constructor
  · intro h
    simp [Create, hreg, saveDeferred, h]
  · intro h
    simp [Update, hreg, saveDeferred, h]

theorem Create_Update_return_cache_result_witness :
    (person (registeredModel "Person" [2] none)
      (address (registeredModel "Address" [] none))).getModel.Registered = true ∧
    (RunInTransaction failingCacheEnv []
        (person (registeredModel "Person" [2] none) (address (registeredModel "Address" [] none)))
        (create failingCacheEnv)).outcome = .returned none ∧
    (Create failingCacheEnv []
        (person (registeredModel "Person" [2] none)
          (address (registeredModel "Address" [] none)))).outcome =
      .returned (failingCacheEnv.saveInMemcache
        (RunInTransaction failingCacheEnv []
          (person (registeredModel "Person" [2] none) (address (registeredModel "Address" [] none)))
          (create failingCacheEnv)).world
        (RunInTransaction failingCacheEnv []
          (person (registeredModel "Person" [2] none) (address (registeredModel "Address" [] none)))
          (create failingCacheEnv)).value) :=
  ⟨rfl, rfl,
    ((Create_Update_return_cache_result failingCacheEnv []
      (person (registeredModel "Person" [2] none) (address (registeredModel "Address" [] none)))
      rfl).1 rfl).1⟩

/-- C10: a registered `Person` with key 7 whose `Home` reference is the zero `Address{}`.
`Read` of the person passes the registration check and panics all the same, after the memcache
read, the start of the transaction and the `Get` of the person: the failure of the reference is
not returned as an error. -/
theorem Read_registered_panics_on_zero_reference :
    (person (registeredModel "Person" [2] (some (NewKey "Person" "" 7 [])))
      (address zeroModel)).getModel.Registered = true ∧
    Read countingEnv []
        (person (registeredModel "Person" [2] (some (NewKey "Person" "" 7 []))) (address zeroModel))
      = ⟨.panicked .nilPointerDereference,
          [.loadFromMemcache (some (NewKey "Person" "" 7 [])), .beginTransaction,
            .get (NewKey "Person" "" 7 [])],
          person (registeredModel "Person" [2] (some (NewKey "Person" "" 7 [])))
            (address zeroModel)⟩ :=
  ⟨rfl, rfl⟩

/-! ## A reference without a key stops the read of its parent -/

/-- Loading the properties of a modelable leaves its nested modelables as they are. -/
theorem fromPropertyList_resolve (props : List (String × String)) :
    ∀ (fs : Fields) (k : Nat), (fromPropertyList props fs).resolve k = fs.resolve k
  | .nil, _ => by simp [fromPropertyList]
  | .plain _ _ _, 0 => by simp [fromPropertyList, Fields.resolve]
  | .sub _ _ _, 0 => by simp [fromPropertyList, Fields.resolve]
  | .plain _ _ rest, k + 1 => by
    simp only [fromPropertyList, Fields.resolve]
    exact fromPropertyList_resolve props rest k
  | .sub _ _ rest, k + 1 => by
    simp only [fromPropertyList, Fields.resolve]
    exact fromPropertyList_resolve props rest k

theorem rangeReferences_append (visit : Nat → World → Step (Option Modelable)) :
    ∀ (a b : List Nat) (w : World) (fs : Fields),
      rangeReferences visit (a ++ b) w fs =
        match (rangeReferences visit a w fs).outcome with
        | .returned none =>
          rangeReferences visit b (rangeReferences visit a w fs).world
            (rangeReferences visit a w fs).value
        | _ => rangeReferences visit a w fs
  | [], b, w, fs => by simp [rangeReferences]
  | k :: a, b, w, fs => by
    simp only [List.cons_append, rangeReferences]
    cases h : (visit k w).outcome with
    | returned err =>
      cases err with
      | none => exact rangeReferences_append visit a b _ _
      | some e => simp
    | panicked v => simp

/-- When the `read` of a keyed modelable reaches a reference that has its structure and no key
(the `Get` of the parent and the reads of the references ranged over before succeeded), the
missing-key error of that reference is the result of the whole read, and no `Get` is made for
the reference. -/
theorem read_returns_missing_key_of_reference (env : Env) (w : World) (tn : String)
    (model : Model) (fs : Fields) (key : Key) (s s1 : Structure) (pre post : List Nat) (k : Nat)
    (ref : Modelable)
    (hkey : model.key = some key) (hs : model.struct = some s)
    (hget : (env.get w key).2 = none) (hrefs : s.references = pre ++ k :: post)
    (hpre : (rangeReferences (fun k w1 => readAt env w1 fs k) pre (w ++ [.get key])
        (fromPropertyList (env.get w key).1 fs)).outcome = .returned none)
    (href : fs.resolve k = some ref) (hrkey : ref.getModel.key = none)
    (hrs : ref.getModel.struct = some s1) :
    (read env w (.mk tn model fs)).outcome = .returned (some (.missingKeyRead s1.structName)) ∧
    (read env w (.mk tn model fs)).world =
      (rangeReferences (fun k w1 => readAt env w1 fs k) pre (w ++ [.get key])
        (fromPropertyList (env.get w key).1 fs)).world := by
  have hvisit : ∀ w1, readAt env w1 fs k =
      ⟨.returned (some (.missingKeyRead s1.structName)), w1, some ref⟩ := by
    intro w1
    rw [readAt_resolve, href]
    simp only [read_unkeyed_missing_key env w1 ref s1 hrkey hrs]
  simp only [read, hkey, hget, rangeModelReferences, hs, hrefs, rangeReferences_append, hpre,
    rangeReferences, hvisit, and_self]

/-! ## ModelableFromID -/

theorem rangeReferences_outcome (visit : Nat → World → Step (Option Modelable)) :
    ∀ (ks : List Nat) (w : World) (fs : Fields),
      (rangeReferences visit ks w fs).outcome = .returned none ∨
        ∃ k w1, k ∈ ks ∧ (rangeReferences visit ks w fs).outcome = (visit k w1).outcome
  | [], _, _ => Or.inl rfl
  | k :: ks, w, fs => by
    simp only [rangeReferences]
    cases h : (visit k w).outcome with
    | returned err =>
      cases err with
      | none =>
        rcases rangeReferences_outcome visit ks (visit k w).world
            (match (visit k w).value with
              | some ref => fs.set k ref
              | none => fs) with h1 | ⟨j, w1, hj, h1⟩
        · exact Or.inl h1
        · exact Or.inr ⟨j, w1, List.mem_cons_of_mem k hj, h1⟩
      | some e => exact Or.inr ⟨k, w, List.mem_cons_self k ks, h.symm⟩
    | panicked v => exact Or.inr ⟨k, w, List.mem_cons_self k ks, h.symm⟩

/-- The only panic `read` can end in is the nil pointer dereference: it never panics with an
error value, which is what the registration check of the public operations does. -/
theorem read_panics_only_on_nil (env : Env) :
    ∀ (m : Modelable) (w : World) (e : Error), (read env w m).outcome ≠ .panicked (.error e) := by
  intro m
  induction m using Modelable.induction_on_references with
  | step tn model fs ih =>
    intro w e
    cases hkey : model.key with
    | none => cases hs : model.struct <;> simp [read, hkey, hs]
    | some key =>
      cases hget : (env.get w key).2 with
      | some err => simp [read, hkey, hget]
      | none =>
        cases hs : model.struct with
        | none => simp [read, hkey, hget, rangeModelReferences, hs]
        | some s =>
          simp only [read, hkey, hget, rangeModelReferences, hs]
          rcases rangeReferences_outcome (fun k w1 => readAt env w1 fs k) s.references
              (w ++ [.get key]) (fromPropertyList (env.get w key).1 fs) with h | ⟨k, w1, _, h⟩
          · rw [h]; simp
          · rw [h, readAt_resolve]
            cases href : fs.resolve k with
            | none => simp
            | some ref => exact ih k ref href w1 e

theorem RunInTransaction_read_panics_only_on_nil (env : Env) (w : World) (m : Modelable)
    (e : Error) : (RunInTransaction env w m (read env)).outcome ≠ .panicked (.error e) := by
  unfold RunInTransaction
  cases env.beginTransaction w with
  | some err => simp
  | none =>
    have h := read_panics_only_on_nil env m (w ++ [.beginTransaction]) e
    cases hr : (read env (w ++ [.beginTransaction]) m).outcome with
    | returned err => cases err <;> simp [hr]
    | panicked v =>
      rw [hr] at h
      simpa [hr] using h

/-- `Read` of a registered modelable passes the registration check: it does not end in the panic
of that check. -/
theorem Read_registered_passes_check (env : Env) (w : World) (m : Modelable) (e : Error)
    (hreg : m.getModel.Registered = true) : (Read env w m).outcome ≠ .panicked (.error e) := by
  simp only [Read, hreg, Bool.not_true, Bool.false_eq_true, if_false]
  cases (env.loadFromMemcache w m).2 with
  | none => simp
  | some _ => exact RunInTransaction_read_panics_only_on_nil env _ _ e

theorem NewKey_Incomplete (kind : String) (id : Int) :
    (NewKey kind "" id []).Incomplete = false ↔ id ≠ 0 := by
  simp [NewKey, Key.Incomplete]

/-! ## Register -/

theorem Register_mk_panicked (reg : Registry) (tn : String) (model : Model) (fs : Fields)
    (v : PanicValue) (h : (registerFields reg fs).panic = some v) :
    Register reg (.mk tn model fs) =
      ⟨some v, .mk tn (modelAfterWalk model fs (registerFields reg fs).value)
        (registerFields reg fs).value⟩ := by
  simp only [Register, h]

theorem Register_mk_returned (reg : Registry) (tn : String) (model : Model) (fs : Fields)
    (h : (registerFields reg fs).panic = none) :
    Register reg (.mk tn model fs) =
      if (modelAfterWalk model fs (registerFields reg fs).value).Registered = true then
        ⟨none, .mk tn (modelAfterWalk model fs (registerFields reg fs).value)
          (registerFields reg fs).value⟩
      else
        ⟨none, (Modelable.mk tn (modelAfterWalk model fs (registerFields reg fs).value)
            (registerFields reg fs).value).setModelDeep
          { Registered := true, struct := some (builtStructure reg tn fs),
            key := (modelAfterWalk model fs (registerFields reg fs).value).key }⟩ := by
  simp only [Register, h]
  cases (modelAfterWalk model fs (registerFields reg fs).value).Registered <;> simp

theorem registerFields_plain (reg : Registry) (f : FieldInfo) (v : String) (rest : Fields) :
    registerFields reg (.plain f v rest) =
      if (f.eligible && !f.exported) = true then ⟨some .unexportedField, .plain f v rest⟩
      else ⟨(registerFields reg rest).panic, .plain f v (registerFields reg rest).value⟩ := by
  simp only [registerFields]

theorem registerFields_sub_skipped (reg : Registry) (f : FieldInfo) (m : Modelable)
    (rest : Fields) (he : f.eligible = false) :
    registerFields reg (.sub f m rest) =
      ⟨(registerFields reg rest).panic, .sub f m (registerFields reg rest).value⟩ := by
  simp [registerFields, he]

theorem registerFields_sub_unexported (reg : Registry) (f : FieldInfo) (m : Modelable)
    (rest : Fields) (he : f.eligible = true) (hx : f.exported = false) :
    registerFields reg (.sub f m rest) = ⟨some .unexportedField, .sub f m rest⟩ := by
  simp [registerFields, he, hx]

theorem registerFields_sub_panicked (reg : Registry) (f : FieldInfo) (m : Modelable)
    (rest : Fields) (v : PanicValue) (he : f.eligible = true) (hx : f.exported = true)
    (hp : (Register reg m).panic = some v) :
    registerFields reg (.sub f m rest) = ⟨some v, .sub f (Register reg m).value rest⟩ := by
  simp [registerFields, he, hx, hp]

theorem registerFields_sub_returned (reg : Registry) (f : FieldInfo) (m : Modelable)
    (rest : Fields) (he : f.eligible = true) (hx : f.exported = true)
    (hp : (Register reg m).panic = none) :
    registerFields reg (.sub f m rest) =
      ⟨(registerFields reg rest).panic,
        .sub f (Register reg m).value (registerFields reg rest).value⟩ := by
  simp [registerFields, he, hx, hp]

mutual
theorem Register_panic (reg : Registry) :
    ∀ m : Modelable, (Register reg m).panic = m.registerPanics
  | .mk tn model fs => by
    have h := registerFields_panic reg fs
    simp only [Modelable.registerPanics, ← h]
    cases hp : (registerFields reg fs).panic with
    | some v => rw [Register_mk_panicked reg tn model fs v hp]
    | none =>
      rw [Register_mk_returned reg tn model fs hp]
      split <;> rfl
theorem registerFields_panic (reg : Registry) :
    ∀ fs : Fields, (registerFields reg fs).panic = fs.registerPanics
  | .nil => rfl
  | .plain f v rest => by
    have h := registerFields_panic reg rest
    rw [registerFields_plain]
    simp only [Fields.registerPanics]
    split
    · rfl
    · exact h
  | .sub f m rest => by
    have h := registerFields_panic reg rest
    have hm := Register_panic reg m
    cases he : f.eligible with
    | false =>
      rw [registerFields_sub_skipped reg f m rest he]
      simp [Fields.registerPanics, he, h]
    | true =>
      cases hx : f.exported with
      | false =>
        rw [registerFields_sub_unexported reg f m rest he hx]
        simp [Fields.registerPanics, he, hx]
      | true =>
        cases hp : (Register reg m).panic with
        | some v =>
          rw [registerFields_sub_panicked reg f m rest v he hx hp]
          rw [hp] at hm
          simp [Fields.registerPanics, he, hx, ← hm]
        | none =>
          rw [registerFields_sub_returned reg f m rest he hx hp]
          rw [hp] at hm
          simp [Fields.registerPanics, he, hx, ← hm, h]
end

mutual
theorem setModelDeep_registerPanics :
    ∀ (m : Modelable) (model : Model), (m.setModelDeep model).registerPanics = m.registerPanics
  | .mk tn _ fs, model => by
    simp only [Modelable.setModelDeep, Modelable.registerPanics]
    split
    · rfl
    · exact setPromoted_registerPanics fs model
theorem setPromoted_registerPanics :
    ∀ (fs : Fields) (model : Model), (fs.setPromoted model).registerPanics = fs.registerPanics
  | .nil, _ => rfl
  | .plain f v rest, model => by
    simp only [Fields.setPromoted, Fields.registerPanics, setPromoted_registerPanics rest model]
  | .sub f m rest, model => by
    simp only [Fields.setPromoted]
    split
    · simp only [Fields.registerPanics, setModelDeep_registerPanics m model]
    · simp only [Fields.registerPanics, setPromoted_registerPanics rest model]
end

mutual
theorem Register_value_registerPanics (reg : Registry) :
    ∀ m : Modelable, (Register reg m).value.registerPanics = m.registerPanics
  | .mk tn model fs => by
    have h := registerFields_value_registerPanics reg fs
    cases hp : (registerFields reg fs).panic with
    | some v =>
      rw [Register_mk_panicked reg tn model fs v hp]
      simpa [Modelable.registerPanics] using h
    | none =>
      rw [Register_mk_returned reg tn model fs hp]
      split
      · simpa [Modelable.registerPanics] using h
      · rw [setModelDeep_registerPanics]
        simpa [Modelable.registerPanics] using h
theorem registerFields_value_registerPanics (reg : Registry) :
    ∀ fs : Fields, (registerFields reg fs).value.registerPanics = fs.registerPanics
  | .nil => rfl
  | .plain f v rest => by
    have h := registerFields_value_registerPanics reg rest
    rw [registerFields_plain]
    split
    · rfl
    · rename_i hc
      simp only [Fields.registerPanics, hc, h]
  | .sub f m rest => by
    have h := registerFields_value_registerPanics reg rest
    have hm := Register_value_registerPanics reg m
    cases he : f.eligible with
    | false =>
      rw [registerFields_sub_skipped reg f m rest he]
      simp [Fields.registerPanics, he, h]
    | true =>
      cases hx : f.exported with
      | false => rw [registerFields_sub_unexported reg f m rest he hx]
      | true =>
        cases hp : (Register reg m).panic with
        | some v =>
          rw [registerFields_sub_panicked reg f m rest v he hx hp]
          have hq := Register_panic reg m
          rw [hp] at hq
          simp [Fields.registerPanics, he, hx, hm, ← hq]
        | none =>
          rw [registerFields_sub_returned reg f m rest he hx hp]
          simp [Fields.registerPanics, he, hx, hm, h]
end

/-- A second `Register` on the state a first one left ends as the first did: with the same
panic, or with none. -/
theorem Register_panic_again (reg : Registry) (m : Modelable) :
    (Register reg (Register reg m).value).panic = (Register reg m).panic := by
  rw [Register_panic, Register_value_registerPanics, Register_panic]

theorem registerFields_panic_again (reg : Registry) (fs : Fields) :
    (registerFields reg (registerFields reg fs).value).panic = (registerFields reg fs).panic := by
  rw [registerFields_panic, registerFields_value_registerPanics, registerFields_panic]

theorem registerFields_ownsModel (reg : Registry) :
    ∀ fs : Fields, (registerFields reg fs).value.ownsModel = fs.ownsModel
  | .nil => rfl
  | .plain f v rest => by
    rw [registerFields_plain]
    split
    · rfl
    · simp only [Fields.ownsModel, registerFields_ownsModel reg rest]
  | .sub f m rest => by
    have h := registerFields_ownsModel reg rest
    cases he : f.eligible with
    | false =>
      rw [registerFields_sub_skipped reg f m rest he]
      simp only [Fields.ownsModel, h]
    | true =>
      cases hx : f.exported with
      | false => rw [registerFields_sub_unexported reg f m rest he hx]
      | true =>
        cases hp : (Register reg m).panic with
        | some v =>
          rw [registerFields_sub_panicked reg f m rest v he hx hp]
          simp only [Fields.ownsModel]
        | none =>
          rw [registerFields_sub_returned reg f m rest he hx hp]
          simp only [Fields.ownsModel, h]

theorem setModelDeep_getModel (m : Modelable) (model : Model) :
    (m.setModelDeep model).getModel = model := by
  cases m with
  | mk tn _ fs => rfl

theorem setModelDeep_typeName (m : Modelable) (model : Model) :
    (m.setModelDeep model).typeName = m.typeName := by
  cases m with
  | mk tn _ fs => rfl

theorem setModelDeep_owned (tn : String) (old model : Model) (fs : Fields)
    (hown : fs.ownsModel = true) :
    (Modelable.mk tn old fs).setModelDeep model = .mk tn model fs := by
  simp [Modelable.setModelDeep, hown]

/-- A registered `Model` is what `m.getModel()` still returns after the walk. -/
theorem modelAfterWalk_registered (model : Model) (fs walked : Fields)
    (h : model.Registered = true) : modelAfterWalk model fs walked = model := by
  simp [modelAfterWalk, h]

theorem modelAfterWalk_owned (model : Model) (fs walked : Fields)
    (h : fs.ownsModel = true) : modelAfterWalk model fs walked = model := by
  simp [modelAfterWalk, h]

theorem modelAfterWalk_promoted (model : Model) (fs walked : Fields)
    (hown : fs.ownsModel = false) (hreg : model.Registered = false) :
    modelAfterWalk model fs walked = walked.promotedModel.getD model := by
  simp [modelAfterWalk, hown, hreg]

/-- `Register` on a registered modelable leaves its `Model` as it was, whether it returns or
panics. -/
theorem Register_keeps_registered_model (reg : Registry) (m : Modelable)
    (hreg : m.getModel.Registered = true) : (Register reg m).value.getModel = m.getModel := by
  cases m with
  | mk tn model fs =>
    simp only [Modelable.getModel] at hreg
    cases hp : (registerFields reg fs).panic with
    | some v =>
      rw [Register_mk_panicked reg tn model fs v hp, modelAfterWalk_registered model fs _ hreg]
      rfl
    | none =>
      rw [Register_mk_returned reg tn model fs hp, modelAfterWalk_registered model fs _ hreg]
      simp [hreg, Modelable.getModel]

/-- When `Register` returns, the modelable is registered. -/
theorem Register_returned_Registered (reg : Registry) (m : Modelable)
    (hp : (Register reg m).panic = none) : (Register reg m).value.getModel.Registered = true := by
  cases m with
  | mk tn model fs =>
    have hw : (registerFields reg fs).panic = none := by
      cases h : (registerFields reg fs).panic with
      | none => rfl
      | some v =>
        rw [Register_mk_panicked reg tn model fs v h] at hp
        cases hp
    rw [Register_mk_returned reg tn model fs hw]
    split
    · rename_i h
      exact h
    · rw [setModelDeep_getModel]

mutual
/-- A second `Register` leaves the `Model` the first one left. -/
theorem Register_twice_model (reg : Registry) :
    ∀ m : Modelable,
      (Register reg (Register reg m).value).value.getModel = (Register reg m).value.getModel
  | .mk tn model fs => by
    by_cases hR : (Register reg (.mk tn model fs)).value.getModel.Registered = true
    · exact Register_keeps_registered_model reg _ hR
    · cases hp : (registerFields reg fs).panic with
      | none =>
        have h0 : (Register reg (.mk tn model fs)).panic = none := by
          rw [Register_mk_returned reg tn model fs hp]
          split <;> rfl
        exact absurd (Register_returned_Registered reg _ h0) hR
      | some v =>
        have h1 := Register_mk_panicked reg tn model fs v hp
        rw [h1] at hR ⊢
        simp only [Modelable.getModel] at hR
        have hp2 : (registerFields reg (registerFields reg fs).value).panic = some v := by
          rw [registerFields_panic_again, hp]
        rw [Register_mk_panicked reg tn _ _ v hp2]
        simp only [Modelable.getModel]
        have hPF := registerFields_twice_promotedModel reg fs
        cases hown : fs.ownsModel with
        | true =>
          rw [modelAfterWalk_owned _ _ _ (by rw [registerFields_ownsModel, hown])]
        | false =>
          have hmodel : model.Registered = false := by
            cases h : model.Registered with
            | false => rfl
            | true =>
              rw [modelAfterWalk_registered model fs _ h] at hR
              exact absurd h hR
          have hcur : modelAfterWalk model fs (registerFields reg fs).value
              = (registerFields reg fs).value.promotedModel.getD model :=
            modelAfterWalk_promoted model fs _ hown hmodel
          have hreg1 : (modelAfterWalk model fs (registerFields reg fs).value).Registered
              = false := by
            cases h : (modelAfterWalk model fs (registerFields reg fs).value).Registered with
            | false => rfl
            | true => exact absurd h hR
          have hcur2 : modelAfterWalk (modelAfterWalk model fs (registerFields reg fs).value)
              (registerFields reg fs).value
              (registerFields reg (registerFields reg fs).value).value
              = (registerFields reg (registerFields reg fs).value).value.promotedModel.getD
                  (modelAfterWalk model fs (registerFields reg fs).value) :=
            modelAfterWalk_promoted _ _ _ (by rw [registerFields_ownsModel, hown]) hreg1
          rw [hcur2, hPF, hcur]
          cases (registerFields reg fs).value.promotedModel <;> rfl
/-- A second walk leaves the `Model` of the embedded modelable from which `getModel` is promoted
as the first one left it. -/
theorem registerFields_twice_promotedModel (reg : Registry) :
    ∀ fs : Fields,
      (registerFields reg (registerFields reg fs).value).value.promotedModel
        = (registerFields reg fs).value.promotedModel
  | .nil => rfl
  | .plain f v rest => by
    have h := registerFields_twice_promotedModel reg rest
    rw [registerFields_plain reg f v rest]
    split
    · rename_i hc
      rw [registerFields_plain reg f v rest, if_pos hc]
    · rename_i hc
      rw [registerFields_plain reg f v _, if_neg hc]
      simp only [Fields.promotedModel, h]
  | .sub f m rest => by
    have h := registerFields_twice_promotedModel reg rest
    have hm := Register_twice_model reg m
    cases he : f.eligible with
    | false =>
      rw [registerFields_sub_skipped reg f m rest he, registerFields_sub_skipped reg f m _ he]
      simp only [Fields.promotedModel, h]
    | true =>
      cases hx : f.exported with
      | false =>
        rw [registerFields_sub_unexported reg f m rest he hx,
          registerFields_sub_unexported reg f m rest he hx]
      | true =>
        cases hp : (Register reg m).panic with
        | some v =>
          have hp2 : (Register reg (Register reg m).value).panic = some v := by
            rw [Register_panic_again, hp]
          rw [registerFields_sub_panicked reg f m rest v he hx hp,
            registerFields_sub_panicked reg f _ rest v he hx hp2]
          simp only [Fields.promotedModel, hm]
        | none =>
          have hp2 : (Register reg (Register reg m).value).panic = none := by
            rw [Register_panic_again, hp]
          rw [registerFields_sub_returned reg f m rest he hx hp,
            registerFields_sub_returned reg f _ _ he hx hp2]
          simp only [Fields.promotedModel, hm, h]
end

/-- C9: `Register` on a modelable that is already registered leaves its `Model` as it was:
flag, key, structure and reference map, whether the walk returns or panics.  Hence, for every
modelable, registering twice leaves the `Model` that registering once leaves. -/
theorem Register_registered_keeps_model (reg : Registry) (m : Modelable)
    (hreg : m.getModel.Registered = true) :
    (Register reg m).value.getModel = m.getModel ∧
    ∀ m0, (Register reg (Register reg m0).value).value.getModel
      = (Register reg m0).value.getModel :=
  ⟨Register_keeps_registered_model reg m hreg, Register_twice_model reg⟩

theorem Register_registered_keeps_model_witness :
    (person (registeredModel "Person" [] (some (NewKey "Person" "" 7 [])))
      (address zeroModel)).getModel.Registered = true ∧
    (Register emptyRegistry
        (person (registeredModel "Person" [] (some (NewKey "Person" "" 7 [])))
          (address zeroModel))).value.getModel
      = registeredModel "Person" [] (some (NewKey "Person" "" 7 [])) :=
  ⟨rfl, (Register_registered_keeps_model emptyRegistry
    (person (registeredModel "Person" [] (some (NewKey "Person" "" 7 []))) (address zeroModel))
    rfl).1⟩

theorem mem_referenceKeys :
    ∀ (fs : Fields) (n i : Nat), i ∈ referenceKeys n fs ↔
      ∃ j f ref, i = n + j ∧ fs.info j = some f ∧ fs.resolve j = some ref ∧ f.eligible = true
  | .nil, n, i => by simp [referenceKeys, Fields.info]
  | .plain g v rest, n, i => by
    simp only [referenceKeys]
    rw [mem_referenceKeys rest (n + 1) i]
    constructor
    · rintro ⟨j, f, ref, hi, hf, href, he⟩
      exact ⟨j + 1, f, ref, by omega, by simpa [Fields.info] using hf,
        by simpa [Fields.resolve] using href, he⟩
    · rintro ⟨j, f, ref, hi, hf, href, he⟩
      cases j with
      | zero => simp [Fields.resolve] at href
      | succ j =>
        exact ⟨j, f, ref, by omega, by simpa [Fields.info] using hf,
          by simpa [Fields.resolve] using href, he⟩
  | .sub g m rest, n, i => by
    have ih := mem_referenceKeys rest (n + 1) i
    constructor
    · intro hi
      have hcases : (i = n ∧ g.eligible = true) ∨ i ∈ referenceKeys (n + 1) rest := by
        cases hg : g.eligible with
        | false => simpa [referenceKeys, hg] using hi
        | true =>
          simp only [referenceKeys, hg, if_true, List.mem_cons] at hi
          rcases hi with h | h
          · exact Or.inl ⟨h, rfl⟩
          · exact Or.inr h
      rcases hcases with ⟨h, hg⟩ | h
      · exact ⟨0, g, m, by omega, rfl, rfl, hg⟩
      · obtain ⟨j, f, ref, hi, hf, href, he⟩ := ih.1 h
        exact ⟨j + 1, f, ref, by omega, by simpa [Fields.info] using hf,
          by simpa [Fields.resolve] using href, he⟩
    · rintro ⟨j, f, ref, hi, hf, href, he⟩
      cases j with
      | zero =>
        simp only [Fields.info, Option.some.injEq] at hf
        subst hf
        have : i = n := by omega
        subst this
        simp [referenceKeys, he]
      | succ j =>
        have hmem : i ∈ referenceKeys (n + 1) rest :=
          ih.2 ⟨j, f, ref, by omega, by simpa [Fields.info] using hf,
            by simpa [Fields.resolve] using href, he⟩
        cases hg : g.eligible <;> simp [referenceKeys, hg, hmem]

theorem referenceKeys_nodup : ∀ (fs : Fields) (n : Nat), (referenceKeys n fs).Nodup
  | .nil, _ => by simp [referenceKeys]
  | .plain _ _ rest, n => by
    simp only [referenceKeys]
    exact referenceKeys_nodup rest (n + 1)
  | .sub g _ rest, n => by
    have ih := referenceKeys_nodup rest (n + 1)
    cases hg : g.eligible with
    | false => simpa [referenceKeys, hg] using ih
    | true =>
      simp only [referenceKeys, hg, if_true, List.nodup_cons]
      refine ⟨?_, ih⟩
      intro hmem
      obtain ⟨j, _, _, hi, _⟩ := (mem_referenceKeys rest (n + 1) n).1 hmem
      omega

theorem eligible_iff (f : FieldInfo) :
    f.eligible = true ↔ f.isStruct = true ∧ f.isModelType = false ∧ tagName f.tag ≠ tag_skip := by
  simp only [FieldInfo.eligible, Bool.and_eq_true, Bool.not_eq_true', beq_eq_false_iff_ne, ne_eq]
  tauto

theorem registerFields_resolve (reg : Registry) :
    ∀ (fs : Fields) (i : Nat) (f : FieldInfo) (ref : Modelable),
      (registerFields reg fs).panic = none → fs.info i = some f → fs.resolve i = some ref →
        (registerFields reg fs).value.resolve i
            = some (if f.eligible = true then (Register reg ref).value else ref) ∧
          (f.eligible = true → (Register reg ref).panic = none)
  | .nil, _, _, _ => by simp [Fields.resolve]
  | .plain _ _ _, 0, _, _ => by simp [Fields.resolve]
  | .plain g v rest, i + 1, f, ref => by
    intro hp hf href
    simp only [Fields.info] at hf
    simp only [Fields.resolve] at href
    rw [registerFields_plain] at hp ⊢
    split at hp
    · cases hp
    · rename_i hc
      rw [if_neg hc]
      simp only [Fields.resolve]
      exact registerFields_resolve reg rest i f ref hp hf href
  | .sub g m rest, 0, f, ref => by
    intro hp hf href
    simp only [Fields.info, Option.some.injEq] at hf
    simp only [Fields.resolve, Option.some.injEq] at href
    subst hf href
    cases he : g.eligible with
    | false =>
      rw [registerFields_sub_skipped reg g m rest he]
      simp [Fields.resolve]
    | true =>
      cases hx : g.exported with
      | false =>
        rw [registerFields_sub_unexported reg g m rest he hx] at hp
        cases hp
      | true =>
        cases hq : (Register reg m).panic with
        | some v =>
          rw [registerFields_sub_panicked reg g m rest v he hx hq] at hp
          cases hp
        | none =>
          rw [registerFields_sub_returned reg g m rest he hx hq]
          simp [Fields.resolve]
  | .sub g m rest, i + 1, f, ref => by
    intro hp hf href
    simp only [Fields.info] at hf
    simp only [Fields.resolve] at href
    cases he : g.eligible with
    | false =>
      rw [registerFields_sub_skipped reg g m rest he] at hp ⊢
      simp only [Fields.resolve]
      exact registerFields_resolve reg rest i f ref hp hf href
    | true =>
      cases hx : g.exported with
      | false =>
        rw [registerFields_sub_unexported reg g m rest he hx] at hp
        cases hp
      | true =>
        cases hq : (Register reg m).panic with
        | some v =>
          rw [registerFields_sub_panicked reg g m rest v he hx hq] at hp
          cases hp
        | none =>
          rw [registerFields_sub_returned reg g m rest he hx hq] at hp ⊢
          simp only [Fields.resolve]
          exact registerFields_resolve reg rest i f ref hp hf href

/-- When the walk of `Register` panics, a struct that has its own `Model` field keeps its
`Model`: it stays unregistered if it was. -/
theorem Register_panicked_keeps_own_model (reg : Registry) (m : Modelable) (v : PanicValue)
    (hown : m.fields.ownsModel = true) (hp : (Register reg m).panic = some v) :
    (Register reg m).value.getModel = m.getModel := by
  cases m with
  | mk tn model fs =>
    simp only [Modelable.fields] at hown
    have hw : (registerFields reg fs).panic = some v := by
      cases h : (registerFields reg fs).panic with
      | none =>
        rw [Register_mk_returned reg tn model fs h] at hp
        split at hp <;> cases hp
      | some v1 =>
        rw [Register_mk_panicked reg tn model fs v1 h] at hp
        exact hp
    rw [Register_mk_panicked reg tn model fs v hw, modelAfterWalk_owned model fs _ hown]
    rfl

/-- `Register` does not make every unregistered modelable registered with a reference map over
its own fields.  On an `Employee{Person, Role}`, which gets `getModel` from the embedded
`Person`, the walk registers the `Person`, whose `Model` is the employee's: afterwards the
employee's `Model` carries the structure of `Person`, with key 2 (the `Home` of the person), and
not key 0, although field 0 of the employee is of struct kind, is not the `Model`, is not
tagged skip and implements `modelable`.  On a `Ledger{Model, opened time.Time}` the walk panics
at the unexported field of struct kind and the ledger is left unregistered. -/
theorem Register_promoted_or_unexported :
    (employee (person zeroModel (address zeroModel))).getModel.Registered = false ∧
    Register emptyRegistry (employee (person zeroModel (address zeroModel)))
      = ⟨none, employee (person (registeredModel "Person" [2] none)
          (address (registeredModel "Address" [] none)))⟩ ∧
    (employee (person zeroModel (address zeroModel))).fields.info 0
      = some ⟨"Person", "", false, true, true, true⟩ ∧
    (employee (person zeroModel (address zeroModel))).fields.resolve 0
      = some (person zeroModel (address zeroModel)) ∧
    (Register emptyRegistry
        (employee (person zeroModel (address zeroModel)))).value.getModel.struct
      = some ⟨⟨"Person", []⟩, [2]⟩ ∧
    (employee (person zeroModel (address zeroModel))).fields.info 2 = none ∧
    (ledger zeroModel).getModel.Registered = false ∧
    Register emptyRegistry (ledger zeroModel) = ⟨some .unexportedField, ledger zeroModel⟩ ∧
    ¬ ((Register emptyRegistry (ledger zeroModel)).value.getModel.Registered = true) :=
  ⟨rfl, rfl, rfl, rfl, rfl, rfl, rfl, rfl, by decide⟩

/-- What `Register` leaves when it returns on an unregistered modelable that has its own `Model`
field. -/
theorem Register_returned_installs_model (reg : Registry) (m : Modelable)
    (hreg : m.getModel.Registered = false) (hown : m.fields.ownsModel = true)
    (hret : (Register reg m).panic = none) :
    (Register reg m).value.getModel.Registered = true ∧
    (Register reg m).value.getModel.key = m.getModel.key ∧
    ∃ s, (Register reg m).value.getModel.struct = some s ∧ s.structName = m.typeName ∧
      s.references.Nodup ∧
      (∀ i, i ∈ s.references ↔
        ∃ f ref, m.fields.info i = some f ∧ m.fields.resolve i = some ref ∧
          f.isStruct = true ∧ f.isModelType = false ∧ tagName f.tag ≠ tag_skip) ∧
      (∀ i ∈ s.references, ∃ ref, m.fields.resolve i = some ref ∧
        (Register reg ref).panic = none ∧
        (Register reg m).value.fields.resolve i = some (Register reg ref).value ∧
        (Register reg ref).value.getModel.Registered = true) ∧
      (∀ i f ref, m.fields.info i = some f → m.fields.resolve i = some ref →
        tagName f.tag = tag_skip → (Register reg m).value.fields.resolve i = some ref) := by
  cases m with
  | mk tn model fs =>
    simp only [Modelable.getModel] at hreg
    simp only [Modelable.fields] at hown
    have hw : (registerFields reg fs).panic = none := by
      cases h : (registerFields reg fs).panic with
      | none => rfl
      | some v =>
        rw [Register_mk_panicked reg tn model fs v h] at hret
        cases hret
    have hR : Register reg (.mk tn model fs) =
        ⟨none, .mk tn ⟨true, some (builtStructure reg tn fs), model.key⟩
          (registerFields reg fs).value⟩ := by
      rw [Register_mk_returned reg tn model fs hw, modelAfterWalk_owned model fs _ hown]
      simp only [hreg, Bool.false_eq_true, if_false]
      rw [setModelDeep_owned _ _ _ _ (by rw [registerFields_ownsModel, hown])]
    rw [hR]
    simp only [Modelable.getModel, Modelable.fields, Modelable.typeName]
    refine ⟨trivial, trivial, builtStructure reg tn fs, rfl, rfl, referenceKeys_nodup fs 0,
      ?_, ?_, ?_⟩
    · intro i
      show i ∈ referenceKeys 0 fs ↔ _
      rw [mem_referenceKeys]
      constructor
      · rintro ⟨j, f, ref, hi, hf, href, he⟩
        have : i = j := by omega
        subst this
        exact ⟨f, ref, hf, href, (eligible_iff f).1 he⟩
      · rintro ⟨f, ref, hf, href, he⟩
        exact ⟨i, f, ref, by omega, hf, href, (eligible_iff f).2 he⟩
    · intro i hi
      obtain ⟨j, f, ref, hij, hf, href, he⟩ := (mem_referenceKeys fs 0 i).1 hi
      have : i = j := by omega
      subst this
      obtain ⟨h1, h2⟩ := registerFields_resolve reg fs i f ref hw hf href
      refine ⟨ref, href, h2 he, ?_, Register_returned_Registered reg ref (h2 he)⟩
      rw [h1]
      simp [he]
    · intro i f ref hf href htag
      obtain ⟨h1, _⟩ := registerFields_resolve reg fs i f ref hw hf href
      rw [h1]
      have hne : f.eligible = false := by
        cases h : f.eligible with
        | false => rfl
        | true => exact absurd htag ((eligible_iff f).1 h).2.2
      simp [hne]

/-- C8, as amended: for a modelable that is not registered yet and has its own `Model` field,
`Register` panics exactly when its walk meets a field of struct kind that is not the `Model`,
is not tagged skip and is unexported, in the modelable or in a nested one it registers, and then
the `Model` of the modelable is left as it was.  Otherwise `Register` leaves it registered, with
the key it held before, and with a structure named after its type whose reference map has
exactly the keys `i` such that field `i` is of struct kind, is not the `Model`, has a tag whose
first token is not the skip directive, and implements `modelable`.  The keys are distinct, the
entry at key `i` leads to field `i`, on which `Register` returned and which now holds the
registered nested modelable, and a skip-tagged field holds the modelable it held before. -/
theorem Register_installs_model (reg : Registry) (m : Modelable)
    (hreg : m.getModel.Registered = false) (hown : m.fields.ownsModel = true) :
    (Register reg m).panic = m.registerPanics ∧
    (∀ v, (Register reg m).panic = some v → (Register reg m).value.getModel = m.getModel) ∧
    ((Register reg m).panic = none →
      (Register reg m).value.getModel.Registered = true ∧
      (Register reg m).value.getModel.key = m.getModel.key ∧
      ∃ s, (Register reg m).value.getModel.struct = some s ∧ s.structName = m.typeName ∧
        s.references.Nodup ∧
        (∀ i, i ∈ s.references ↔
          ∃ f ref, m.fields.info i = some f ∧ m.fields.resolve i = some ref ∧
            f.isStruct = true ∧ f.isModelType = false ∧ tagName f.tag ≠ tag_skip) ∧
        (∀ i ∈ s.references, ∃ ref, m.fields.resolve i = some ref ∧
          (Register reg ref).panic = none ∧
          (Register reg m).value.fields.resolve i = some (Register reg ref).value ∧
          (Register reg ref).value.getModel.Registered = true) ∧
        (∀ i f ref, m.fields.info i = some f → m.fields.resolve i = some ref →
          tagName f.tag = tag_skip → (Register reg m).value.fields.resolve i = some ref)) :=
  ⟨Register_panic reg m,
    fun v hv => Register_panicked_keeps_own_model reg m v hown hv,
    fun hret => Register_returned_installs_model reg m hreg hown hret⟩

theorem Register_installs_model_witness :
    (person zeroModel (address zeroModel)).getModel.Registered = false ∧
    (person zeroModel (address zeroModel)).fields.ownsModel = true ∧
    (Register emptyRegistry (person zeroModel (address zeroModel))).panic = none ∧
    (Register emptyRegistry (person zeroModel (address zeroModel))).value.getModel.Registered
      = true ∧
    Register emptyRegistry (person zeroModel (address zeroModel))
      = ⟨none, person (registeredModel "Person" [2] none)
          (address (registeredModel "Address" [] none))⟩ ∧
    (ledger zeroModel).registerPanics = some .unexportedField ∧
    (Register emptyRegistry (ledger zeroModel)).value.getModel = zeroModel :=
  ⟨rfl, rfl, rfl,
    ((Register_installs_model emptyRegistry (person zeroModel (address zeroModel))
      rfl rfl).2.2 rfl).1, rfl, rfl, rfl⟩

/-! ## ModelableFromID on a registered instance -/

/-- On a struct that has its own `Model` field, is not registered and on which the walk returns,
`Register` installs the structure built for the struct and keeps the key. -/
theorem Register_installs_built_structure (reg : Registry) (tn : String) (model : Model)
    (fs : Fields) (hreg : model.Registered = false) (hown : fs.ownsModel = true)
    (hret : (Register reg (.mk tn model fs)).panic = none) :
    Register reg (.mk tn model fs) =
      ⟨none, .mk tn ⟨true, some (builtStructure reg tn fs), model.key⟩
        (registerFields reg fs).value⟩ := by
  have hw : (registerFields reg fs).panic = none := by
    cases h : (registerFields reg fs).panic with
    | none => rfl
    | some v =>
      rw [Register_mk_panicked reg tn model fs v h] at hret
      cases hret
  rw [Register_mk_returned reg tn model fs hw, modelAfterWalk_owned model fs _ hown]
  simp only [hreg, Bool.false_eq_true, if_false]
  rw [setModelDeep_owned _ _ _ _ (by rw [registerFields_ownsModel, hown])]

/-- `ModelableFromID` does not always reach `Read` with the complete key of the type name and
the id.  With id 0 the key it gives a fresh `Address` is the incomplete key of the type name.
On a `Ledger` with an unexported field of struct kind it panics inside `Register`, before any
collaborator is called.  On an `Employee` that gets `getModel` from the embedded `Person`,
registered or not, the key it sets is of kind `Person`. -/
theorem ModelableFromID_zero_id_key_incomplete :
    ModelableFromID emptyRegistry countingEnv [] (address zeroModel) 0
      = Read countingEnv []
          (address (registeredModel "Address" [] (some (NewKey "Address" "" 0 [])))) ∧
    (address (registeredModel "Address" [] (some (NewKey "Address" "" 0 [])))).getModel.key
      = some (NewIncompleteKey "Address") ∧
    (NewKey "Address" "" 0 []).Incomplete = true ∧
    ¬ ((NewKey "Address" "" 0 []).Incomplete = false) ∧
    ModelableFromID emptyRegistry countingEnv [] (ledger zeroModel) 42
      = ⟨.panicked .unexportedField, [], ledger zeroModel⟩ ∧
    ModelableFromID emptyRegistry countingEnv []
        (employee (person zeroModel (address zeroModel))) 42
      = Read countingEnv []
          (employee (person (registeredModel "Person" [2] (some (NewKey "Person" "" 42 [])))
            (address (registeredModel "Address" [] none)))) ∧
    (employee (person (registeredModel "Person" [2] none)
      (address (registeredModel "Address" [] none)))).getModel.Registered = true ∧
    ModelableFromID emptyRegistry countingEnv []
        (employee (person (registeredModel "Person" [2] none)
          (address (registeredModel "Address" [] none)))) 42
      = Read countingEnv []
          (employee (person (registeredModel "Person" [2] (some (NewKey "Person" "" 42 [])))
            (address (registeredModel "Address" [] none)))) ∧
    (employee (person zeroModel (address zeroModel))).typeName = "Employee" ∧
    NewKey "Person" "" 42 [] ≠ NewKey "Employee" "" 42 [] :=
  ⟨rfl, rfl, by decide, by decide, rfl, rfl, rfl, rfl, rfl, by decide⟩

/-- C11, as amended: for every modelable that is registered and carries the structure `Register`
installs (named after its type), or that is not registered, has its own `Model` field and lets
`Register` return, whatever key it holds, and for every id, `ModelableFromID` is the public
`Read` of that modelable, registered when it was not, with its key replaced by the key `NewKey`
builds from the type name, the empty name, the id and no parent.  At that point `Registered` is
true and `Id()` is the id, so the registration check of `Read` does not panic; the key is
complete exactly when the id is not 0; and when the memcache lookup fails the result is that of
the transaction running `read`. -/
theorem ModelableFromID_reads_with_key_of_id (reg : Registry) (env : Env) (w : World)
    (m : Modelable) (id : Int)
    (hm : (m.getModel.Registered = false ∧ m.fields.ownsModel = true ∧
        (Register reg m).panic = none) ∨
      (m.getModel.Registered = true ∧
        ∃ s, m.getModel.struct = some s ∧ s.structName = m.typeName)) :
    ∃ m0 m1 : Modelable,
      m0 = (if m.getModel.Registered = true then m else (Register reg m).value) ∧
      m1 = m0.setModelDeep { m0.getModel with key := some (NewKey m.typeName "" id []) } ∧
      ModelableFromID reg env w m id = Read env w m1 ∧
      m1.getModel.Registered = true ∧
      m1.typeName = m.typeName ∧
      m1.getModel.key = some (NewKey m.typeName "" id []) ∧
      ((NewKey m.typeName "" id []).Incomplete = false ↔ id ≠ 0) ∧
      m1.getModel.Id = id ∧
      (∀ e, (ModelableFromID reg env w m id).outcome ≠ .panicked (.error e)) ∧
      (∀ e, (env.loadFromMemcache w m1).2 = some e →
        ModelableFromID reg env w m id =
          RunInTransaction env (w ++ [.loadFromMemcache m1.getModel.key])
            (env.loadFromMemcache w m1).1 (read env)) := by
  cases m with
  | mk tn model fs =>
    simp only [Modelable.getModel, Modelable.typeName, Modelable.fields] at hm
    have key : ∀ (m0 : Modelable) (s : Structure), m0.getModel.Registered = true →
        s.structName = tn → m0.typeName = tn →
        ModelableFromID reg env w (.mk tn model fs) id
          = Read env w
              (m0.setModelDeep { m0.getModel with key := some (NewKey s.structName "" id []) }) →
        ∃ m1 : Modelable,
          m1 = m0.setModelDeep { m0.getModel with key := some (NewKey tn "" id []) } ∧
          ModelableFromID reg env w (.mk tn model fs) id = Read env w m1 ∧
          m1.getModel.Registered = true ∧
          m1.typeName = tn ∧
          m1.getModel.key = some (NewKey tn "" id []) ∧
          ((NewKey tn "" id []).Incomplete = false ↔ id ≠ 0) ∧
          m1.getModel.Id = id ∧
          (∀ e, (ModelableFromID reg env w (.mk tn model fs) id).outcome ≠ .panicked (.error e)) ∧
          (∀ e, (env.loadFromMemcache w m1).2 = some e →
            ModelableFromID reg env w (.mk tn model fs) id =
              RunInTransaction env (w ++ [.loadFromMemcache m1.getModel.key])
                (env.loadFromMemcache w m1).1 (read env)) := by
      intro m0 s hreg0 hname htn hrun
      rw [hname] at hrun
      have hreg1 : (m0.setModelDeep
          { m0.getModel with key := some (NewKey tn "" id []) }).getModel.Registered = true := by
        rw [setModelDeep_getModel]
        exact hreg0
      refine ⟨_, rfl, hrun, hreg1, ?_, ?_, NewKey_Incomplete tn id, ?_, ?_, ?_⟩
      · rw [setModelDeep_typeName, htn]
      · rw [setModelDeep_getModel]
      · rw [setModelDeep_getModel]
        simp [Model.Id, NewKey]
      · intro e
        rw [hrun]
        exact Read_registered_passes_check env w _ e hreg1
      · intro e he
        rw [hrun]
        simp only [Read, hreg1, Bool.not_true, Bool.false_eq_true, if_false, he]
    rcases hm with ⟨hreg, hown, hret⟩ | ⟨hreg, s, hs, hname⟩
    · have hR := Register_installs_built_structure reg tn model fs hreg hown hret
      have h0 : (if (Modelable.mk tn model fs).getModel.Registered = true
          then Modelable.mk tn model fs else (Register reg (.mk tn model fs)).value)
          = (Register reg (.mk tn model fs)).value := by
        simp [Modelable.getModel, hreg]
      have hrun : ModelableFromID reg env w (.mk tn model fs) id
          = Read env w ((Register reg (.mk tn model fs)).value.setModelDeep
              { (Register reg (.mk tn model fs)).value.getModel with
                key := some (NewKey (builtStructure reg tn fs).structName "" id []) }) := by
        simp only [ModelableFromID, Modelable.getModel, hreg, Bool.not_false, if_true, hR]
      obtain ⟨m1, h1, rest⟩ := key (Register reg (.mk tn model fs)).value
        (builtStructure reg tn fs) (by rw [hR]; rfl) rfl (by rw [hR]; rfl) hrun
      exact ⟨(Register reg (.mk tn model fs)).value, m1, h0.symm, h1, rest⟩
    · have h0 : (if (Modelable.mk tn model fs).getModel.Registered = true
          then Modelable.mk tn model fs else (Register reg (.mk tn model fs)).value)
          = Modelable.mk tn model fs := by
        simp [Modelable.getModel, hreg]
      have hrun : ModelableFromID reg env w (.mk tn model fs) id
          = Read env w ((Modelable.mk tn model fs).setModelDeep
              { (Modelable.mk tn model fs).getModel with
                key := some (NewKey s.structName "" id []) }) := by
        simp only [ModelableFromID, Modelable.getModel, hreg, Bool.not_true, Bool.false_eq_true,
          if_false, hs]
      obtain ⟨m1, h1, rest⟩ := key (.mk tn model fs) s hreg hname rfl hrun
      exact ⟨.mk tn model fs, m1, h0.symm, h1, rest⟩

theorem ModelableFromID_reads_with_key_of_id_witness :
    ((address zeroModel).getModel.Registered = false ∧
      (address zeroModel).fields.ownsModel = true ∧
      (Register emptyRegistry (address zeroModel)).panic = none) ∧
    ModelableFromID emptyRegistry countingEnv [] (address zeroModel) 42
      = ⟨.returned none,
          [.loadFromMemcache (some (NewKey "Address" "" 42 [])), .beginTransaction,
            .get (NewKey "Address" "" 42 []), .commit],
          address (registeredModel "Address" [] (some (NewKey "Address" "" 42 [])))⟩ ∧
    (∃ m1 : Modelable,
      ModelableFromID emptyRegistry countingEnv [] (address zeroModel) 42
        = Read countingEnv [] m1 ∧
      m1.getModel.Registered = true ∧
      m1.getModel.key = some (NewKey "Address" "" 42 []) ∧
      m1.getModel.Id = 42) ∧
    (ModelableFromID emptyRegistry countingEnv [] (person zeroModel (address zeroModel)) 42).outcome
      = .returned (some (.missingKeyRead "Address")) := by
  refine ⟨⟨rfl, rfl, rfl⟩, rfl, ?_, rfl⟩
  obtain ⟨_, m1, _, _, hrun, hreg, _, hkey, _, hid, _⟩ :=
    ModelableFromID_reads_with_key_of_id emptyRegistry countingEnv [] (address zeroModel) 42
      (Or.inl ⟨rfl, rfl, rfl⟩)
  exact ⟨m1, hrun, hreg, hkey, hid⟩

end Flamel
